import Mathlib

/-!
# drone-flyway plugin: command validation, command-line assembly and execution

A shallow embedding of `plugin/plugin.go` and `plugin/util.go`.

Modelling conventions

* A Go `string` is a list of Unicode code points (`Str`); the text handled by the
  plugin is taken to be valid UTF-8, on which the byte-level substring operations of
  the Go `strings` package agree with their code-point-level counterparts.
* The process environment is an association list; `os.Getenv` looks a name up and
  returns the empty string when the name is absent.
* A Go `error` is a value of `PluginError` (one constructor per `fmt.Errorf` site);
  the `nil` error is `none`.
* Methods with a pointer receiver take the plugin value and return the updated one.
  Dereferencing the nil `InputArgs` pointer is a Go run-time failure, rendered as the
  result `none` of the `Option` in which every method runs.
* `cmd.Run()` is an external collaborator: it is a parameter (`CmdRunner`) that maps
  the command being started to what the subprocess did.
* Log output and started subprocesses are collected in an `Effects` record.
-/

namespace Flyway

/-- A Go string, as the list of its code points. -/
abbrev Str := List Char

/-! ## The parts of the Go standard library the plugin calls -/

namespace strings

/-- Go `strings.HasPrefix s prefix`: `s` begins with `pre`. -/
def HasPrefix : Str → Str → Bool
  | _, [] => true
  | [], _ :: _ => false
  | c :: s, d :: pre => c == d && HasPrefix s pre

/-- Go `strings.Index s substr`: the index of the first instance of `substr` in `s`,
`none` standing for Go's `-1`. -/
def Index : Str → Str → Option Nat
  | [], substr => if substr.isEmpty then some 0 else none
  | c :: s, substr =>
    if HasPrefix (c :: s) substr then some 0 else (Index s substr).map (· + 1)

/-- Go `strings.Contains s substr`: `Index s substr >= 0`. -/
def Contains (s substr : Str) : Bool :=
  (Index s substr).isSome

/-- The scan of `strings.Replace` for a non-empty `old`: `skip` counts the characters
of the instance of `old` just replaced that are still to be passed over. -/
def replaceScan (old new : Str) : Nat → Str → Str
  | _, [] => []
  | skip + 1, _ :: s => replaceScan old new skip s
  | 0, c :: s =>
    if HasPrefix (c :: s) old then new ++ replaceScan old new (old.length - 1) s
    else c :: replaceScan old new 0 s

/-- Go `strings.ReplaceAll s old new`: every non-overlapping instance of `old`, found
left to right, is replaced by `new`; an empty `old` matches at the beginning of the
string and after each code point. -/
def ReplaceAll (s old new : Str) : Str :=
  if old.isEmpty then new ++ s.flatMap (fun c => c :: new)
  else replaceScan old new 0 s

end strings

namespace unicode

/-- Go `unicode.IsSpace`: the Latin-1 spaces `\t \n \v \f \r`, space, U+0085, U+00A0,
and beyond Latin-1 the characters of the Unicode `White_Space` property. -/
def IsSpace (r : Char) : Bool :=
  let n := r.toNat
  (0x09 ≤ n && n ≤ 0x0D) || n == 0x20 || n == 0x85 || n == 0xA0 || n == 0x1680 ||
  (0x2000 ≤ n && n ≤ 0x200A) || n == 0x2028 || n == 0x2029 || n == 0x202F ||
  n == 0x205F || n == 0x3000

end unicode

namespace strings

/-- The scan of `strings.Fields`: `cur` is the field being read (empty between
fields). -/
def fieldsScan : Str → Str → List Str
  | cur, [] => if cur.isEmpty then [] else [cur]
  | cur, c :: s =>
    if unicode.IsSpace c then
      (if cur.isEmpty then fieldsScan [] s else cur :: fieldsScan [] s)
    else fieldsScan (cur ++ [c]) s

/-- Go `strings.Fields s`: the maximal runs of non-space characters of `s`, in
order. -/
def Fields (s : Str) : List Str :=
  fieldsScan [] s

end strings

/-! ## The process environment -/

/-- The environment of the plugin process: its `NAME=value` entries. -/
abbrev ProcessEnv := List (Str × Str)

namespace os

/-- Go `os.Getenv`: the value of the variable, empty when it is not present. -/
def Getenv (env : ProcessEnv) (key : Str) : Str :=
  match env.find? (fun kv => kv.1 == key) with
  | some kv => kv.2
  | none => []

/-- Go `os.Environ`: the environment as `key=value` strings. -/
def Environ (env : ProcessEnv) : List Str :=
  env.map (fun kv => kv.1 ++ "=".toList ++ kv.2)

end os

/-! ## Data model (`plugin.go`) -/

/-- Go `FlywayEnvPluginArgs`. -/
structure FlywayEnvPluginArgs where
  DriverPath : Str := []
  FlywayCommand : Str := []
  Locations : Str := []
  CommandLineArgs : Str := []
  Url : Str := []
  UserName : Str := []
  Password : Str := []
  IsDryRun : Bool := false
  deriving DecidableEq, Repr

/-- Go `Args`: the embedded `FlywayEnvPluginArgs` and the log level. -/
structure Args extends FlywayEnvPluginArgs where
  Level : Str := []
  deriving DecidableEq, Repr

/-- Go `ProcessingInfo`. -/
structure ProcessingInfo where
  ExecCommand : Str := []
  Env : Str := []
  CommandSpecificArgs : Str := []
  deriving DecidableEq, Repr

/-- Go `FlywayPlugin`; `InputArgs` is a pointer, `none` when nil. -/
structure FlywayPlugin extends ProcessingInfo where
  InputArgs : Option Args := none
  IsMultiFileUpload : Bool := false
  deriving DecidableEq, Repr

def MigrateCommand : Str := "migrate".toList
def CleanCommand : Str := "clean".toList
def BaselineCommand : Str := "baseline".toList
def RepairCommand : Str := "repair".toList
def ValidateCommand : Str := "validate".toList
def ConfigFileOpt : Str := "-configFiles".toList

/-- Go `knownCommandsMap`: the supported commands with their descriptions. -/
def knownCommandsMap : List (Str × Str) :=
  [ (MigrateCommand, "Performs database migration".toList),
    (CleanCommand, "Drops all objects in the configured schemas".toList),
    (BaselineCommand, "Baselines an existing database".toList),
    (RepairCommand, "Repairs the schema history table".toList),
    (ValidateCommand,
      "Validates the applied migrations against the available ones".toList) ]

/-- The errors the plugin creates, one constructor per `fmt.Errorf` call. -/
inductive PluginError where
  /-- Go `fmt.Errorf("Command is empty")`. -/
  | commandEmpty
  /-- Go `fmt.Errorf("unknown command: %s", cmd)`. -/
  | unknownCommand (cmd : Str)
  /-- Go `fmt.Errorf("Missing mandatory argument: %s (env: %s)", hint, envName)`. -/
  | missingMandatoryArgument (hint envName : Str)
  /-- Go `fmt.Errorf("Invalid command: %s", execCommand)`. -/
  | invalidCommand (execCommand : Str)
  deriving DecidableEq, Repr

/-- The text of an error (`err.Error()`). -/
def PluginError.Error : PluginError → Str
  | .commandEmpty => "Command is empty".toList
  | .unknownCommand cmd => "unknown command: ".toList ++ cmd
  | .missingMandatoryArgument hint envName =>
    "Missing mandatory argument: ".toList ++ hint ++ " (env: ".toList ++ envName ++ ")".toList
  | .invalidCommand execCommand => "Invalid command: ".toList ++ execCommand

/-! ## Observable effects: log output and subprocesses -/

/-- The logrus level of a log line. -/
inductive LogLevel where
  | info
  | error
  deriving DecidableEq, Repr

/-- One line handed to the logger. -/
inductive LogEntry where
  /-- A line whose text is fully determined by strings. -/
  | text (level : LogLevel) (msg : Str)
  /-- Go `LogPrintln(p, msg)`: the prefix `Plugin Info:`, the plugin printed in the
  default format of `fmt`, then `msg`. -/
  | pluginInfo (p : FlywayPlugin) (msg : Str)
  deriving DecidableEq, Repr

/-- Go `exec.Cmd` as the plugin sets it up: program name, arguments, and the
environment (`none` when `cmd.Env` is left nil and the subprocess inherits). -/
structure Cmd where
  Name : Str
  Args : List Str
  Env : Option (List Str) := none
  deriving DecidableEq, Repr

/-- What `cmd.Run()` reported: the captured streams and the returned error, `none`
when the subprocess exited with status zero, otherwise the text of the error (a
non-zero exit status, or a failure to start). -/
structure CmdResult where
  Stdout : Str := []
  Stderr : Str := []
  err : Option Str := none
  deriving DecidableEq, Repr

/-- The behaviour of the operating system when a subprocess is run. -/
abbrev CmdRunner := Cmd → CmdResult

/-- The effects of a run of the plugin, oldest first. -/
structure Effects where
  log : List LogEntry := []
  started : List Cmd := []
  deriving DecidableEq, Repr

/-- Go `LogPrintln(msg)` with a single string argument. -/
def LogPrintln (fx : Effects) (msg : Str) : Effects :=
  { fx with log := fx.log ++ [.text .info ("Plugin Info: ".toList ++ msg)] }

/-- Go `logrus.Println` and `logrus.Infof`, with the formatted text. -/
def logInfo (fx : Effects) (msg : Str) : Effects :=
  { fx with log := fx.log ++ [.text .info msg] }

/-- Go `logrus.Errorf`, with the formatted text. -/
def logError (fx : Effects) (msg : Str) : Effects :=
  { fx with log := fx.log ++ [.text .error msg] }

/-! ## The plugin (`util.go`, `plugin.go`) -/

/-- Go `error`: `none` is nil. -/
abbrev GoError := Option PluginError

/-- Go `GetFlywayExecutablePath`. -/
def GetFlywayExecutablePath (env : ProcessEnv) : Str :=
  os.Getenv env "FLYWAY_BIN_PATH".toList

/-- Go `(*FlywayPlugin).Init`. -/
def FlywayPlugin.Init (p : FlywayPlugin) (args : Args) : FlywayPlugin × GoError :=
  ({ p with InputArgs := some args }, none)

/-- Go `(*FlywayPlugin).DeInit`. -/
def FlywayPlugin.DeInit (_p : FlywayPlugin) : GoError :=
  none

/-- Go `(*FlywayPlugin).IsUnknownCommand`. -/
def FlywayPlugin.IsUnknownCommand (p : FlywayPlugin) : Option GoError := do
  let args ← p.InputArgs
  if (knownCommandsMap.lookup args.FlywayCommand).isNone then
    return some (.unknownCommand args.FlywayCommand)
  return none

/-- The local type `mandatoryArg` of `CheckMandatoryArgs`. -/
structure mandatoryArg where
  EnvName : Str
  ParamName : Str
  Hint : Str
  deriving DecidableEq, Repr

/-- The `for _, m := range ma` loop of `CheckMandatoryArgs`. -/
def checkMandatoryLoop (env : ProcessEnv) : List mandatoryArg → Effects → GoError × Effects
  | [], fx => (none, fx)
  | m :: ma, fx =>
    if os.Getenv env m.EnvName == [] && m.ParamName == [] then
      (some (.missingMandatoryArgument m.Hint m.EnvName),
        LogPrintln fx ("Missing mandatory argument: ".toList ++ m.EnvName))
    else checkMandatoryLoop env ma fx

/-- Go `(*FlywayPlugin).CheckMandatoryArgs`. -/
def FlywayPlugin.CheckMandatoryArgs (env : ProcessEnv) (p : FlywayPlugin) (fx : Effects) :
    Option (GoError × Effects) := do
  let args ← p.InputArgs
  if strings.Contains args.CommandLineArgs ConfigFileOpt then
    return (none, fx)
  let ma : List mandatoryArg :=
    [ ⟨"FLYWAY_URL".toList, args.Url, "url".toList⟩,
      ⟨"FLYWAY_USER".toList, args.UserName, "username".toList⟩,
      ⟨"FLYWAY_PASSWORD".toList, args.Password, "password".toList⟩ ]
  return checkMandatoryLoop env ma fx

/-- Go `(*FlywayPlugin).IsCommandValid`. -/
def FlywayPlugin.IsCommandValid (env : ProcessEnv) (p : FlywayPlugin) (fx : Effects) :
    Option (GoError × Effects) := do
  let args ← p.InputArgs
  if args.FlywayCommand == [] then
    return (some .commandEmpty, fx)
  let err ← p.IsUnknownCommand
  if err.isSome then
    return (err, fx)
  let (err, fx) ← p.CheckMandatoryArgs env fx
  if err.isSome then
    return (err, fx)
  return (none, fx)

/-- Go `(*FlywayPlugin).ValidateAndProcessArgs`. -/
def FlywayPlugin.ValidateAndProcessArgs (env : ProcessEnv) (p : FlywayPlugin) (_args : Args)
    (fx : Effects) : Option (GoError × Effects) := do
  let (err, fx) ← p.IsCommandValid env fx
  match err with
  | some e => return (some e, { fx with log := fx.log ++ [.pluginInfo p e.Error] })
  | none => return (none, fx)

/-- Go `(*FlywayPlugin).DoPostArgsValidationSetup`. -/
def FlywayPlugin.DoPostArgsValidationSetup (p : FlywayPlugin) (args : Args) :
    FlywayPlugin × GoError :=
  if args.FlywayCommand == CleanCommand then
    if !strings.Contains args.CommandLineArgs "-cleanDisabled".toList then
      ({ p with CommandSpecificArgs := "-cleanDisabled=false".toList ++ " ".toList }, none)
    else (p, none)
  else (p, none)

/-- Go `(*FlywayPlugin).GetExecArgsStr`; the successive `builder.WriteString` calls are
the successive appends. -/
def FlywayPlugin.GetExecArgsStr (env : ProcessEnv) (p : FlywayPlugin) : Option Str := do
  let args ← p.InputArgs
  let builder : Str := []
  let builder := builder ++ (GetFlywayExecutablePath env ++ " ".toList)
  let builder := builder ++ (args.FlywayCommand ++ " ".toList)
  let builder := builder ++ (p.CommandSpecificArgs ++ " ".toList)
  let builder :=
    if args.Url != [] then builder ++ ("-url=".toList ++ args.Url ++ " ".toList) else builder
  let builder :=
    if args.UserName != [] then builder ++ ("-user=".toList ++ args.UserName ++ " ".toList)
    else builder
  let builder :=
    if args.Password != [] then builder ++ ("-password=".toList ++ args.Password ++ " ".toList)
    else builder
  let builder :=
    if args.Locations != [] then builder ++ ("-locations=".toList ++ args.Locations ++ " ".toList)
    else builder
  let builder := builder ++ args.CommandLineArgs
  return builder

/-- Go `(*FlywayPlugin).Run`. -/
def FlywayPlugin.Run (env : ProcessEnv) (runner : CmdRunner) (p : FlywayPlugin) (fx : Effects) :
    Option (FlywayPlugin × GoError × Effects) := do
  let execCommand ← p.GetExecArgsStr env
  let p := { p with ExecCommand := execCommand }
  let args ← p.InputArgs
  let fx := logInfo fx ("Executing command: ".toList ++
    strings.ReplaceAll p.ExecCommand args.Password "******".toList)
  let cmdParts := strings.Fields p.ExecCommand
  if cmdParts.length < 2 then
    return (p, some (.invalidCommand p.ExecCommand), fx)
  let cmdName := cmdParts.headD []
  let cmdArgs := cmdParts.tail
  let cmd : Cmd := { Name := cmdName, Args := cmdArgs }
  let (p, cmd) :=
    if args.DriverPath.length > 0 then
      ({ p with Env := "CLASSPATH=".toList ++ args.DriverPath },
        { cmd with Env := some (os.Environ env ++ ["CLASSPATH=".toList ++ args.DriverPath]) })
    else (p, cmd)
  if args.IsDryRun then
    return (p, none, fx)
  let res := runner cmd
  let fx := { fx with started := fx.started ++ [cmd] }
  let fx :=
    match res.err with
    | none =>
      logInfo (logInfo fx res.Stdout) ("Command executed successfully: ".toList ++ res.Stdout)
    | some e =>
      logError (logInfo fx res.Stderr)
        ("Command execution failed: ".toList ++ res.Stderr ++ ", error: ".toList ++ e)
  return (p, none, fx)

/-- The function deferred by `Exec`: `DeInit` on the copy of the plugin taken when the
`defer` statement ran, its error logged. -/
def Exec.deferred (p : FlywayPlugin) (fx : Effects) : Effects :=
  match p.DeInit with
  | some e => LogPrintln fx ("Error in DeInit: ".toList ++ e.Error)
  | none => fx

/-- The statements of `Exec` that follow the `defer`. -/
def Exec.body (env : ProcessEnv) (runner : CmdRunner) (plugin : FlywayPlugin) (args : Args) :
    Option (FlywayPlugin × GoError × Effects) := do
  let (err, fx) ← plugin.ValidateAndProcessArgs env args {}
  if err.isSome then
    return (plugin, err, fx)
  let (plugin, err) := plugin.DoPostArgsValidationSetup args
  if err.isSome then
    return (plugin, err, fx)
  let (plugin, err, fx) ← plugin.Run env runner fx
  if err.isSome then
    return (plugin, err, fx)
  return (plugin, none, fx)

/-- Go `Exec` (the unused context argument left out): the returned plugin record, the
returned error and the effects; `none` only for a nil dereference. -/
def Exec (env : ProcessEnv) (runner : CmdRunner) (args : Args) :
    Option (FlywayPlugin × GoError × Effects) := do
  let plugin : FlywayPlugin := {}
  let (plugin, err) := plugin.Init args
  if err.isSome then
    return (plugin, err, {})
  let (res, err, fx) ← Exec.body env runner plugin args
  return (res, err, Exec.deferred plugin fx)

/-! ## Vocabulary of the statements -/

/-- Validation as `Exec` performs it: `ValidateAndProcessArgs` on the freshly
initialised plugin returns the nil error. -/
def passesValidation (env : ProcessEnv) (args : Args) : Bool :=
  match (({} : FlywayPlugin).Init args).1.ValidateAndProcessArgs env args {} with
  | some (none, _) => true
  | _ => false

/-- The error with which validation fails, if it does. -/
def validationError (env : ProcessEnv) (args : Args) : Option PluginError :=
  match (({} : FlywayPlugin).Init args).1.ValidateAndProcessArgs env args {} with
  | some (err, _) => err
  | none => none

/-- The five supported command names. -/
def supportedCommands : List Str :=
  [MigrateCommand, CleanCommand, BaselineCommand, RepairCommand, ValidateCommand]

/-- An optional flag of the command line: `name ++ value ++ " "` when the value is
non-empty, nothing otherwise. -/
def optFlag (name value : Str) : Str :=
  if value = [] then [] else name ++ value ++ " ".toList

/-- The four optional flags in the order the builder writes them. -/
def connectionFlags (args : Args) : Str :=
  optFlag "-url=".toList args.Url ++ optFlag "-user=".toList args.UserName ++
  optFlag "-password=".toList args.Password ++ optFlag "-locations=".toList args.Locations

/-- A mandatory value is supplied: by the configuration field or by the environment
variable that backs it. -/
def supplied (env : ProcessEnv) (envName field : Str) : Prop :=
  os.Getenv env envName ≠ [] ∨ field ≠ []

instance (env : ProcessEnv) (envName field : Str) : Decidable (supplied env envName field) := by
  unfold supplied; infer_instance

/-- The error validation ends with, read off the checks of `IsCommandValid`,
`IsUnknownCommand` and `CheckMandatoryArgs` in the order they run. -/
def firstError (env : ProcessEnv) (args : Args) : Option PluginError :=
  if args.FlywayCommand = [] then some .commandEmpty
  else if (knownCommandsMap.lookup args.FlywayCommand).isNone then
    some (.unknownCommand args.FlywayCommand)
  else if strings.Contains args.CommandLineArgs ConfigFileOpt then none
  else if os.Getenv env "FLYWAY_URL".toList = [] ∧ args.Url = [] then
    some (.missingMandatoryArgument "url".toList "FLYWAY_URL".toList)
  else if os.Getenv env "FLYWAY_USER".toList = [] ∧ args.UserName = [] then
    some (.missingMandatoryArgument "username".toList "FLYWAY_USER".toList)
  else if os.Getenv env "FLYWAY_PASSWORD".toList = [] ∧ args.Password = [] then
    some (.missingMandatoryArgument "password".toList "FLYWAY_PASSWORD".toList)
  else none

/-- The command-specific flag `DoPostArgsValidationSetup` records. -/
def cleanFlag (args : Args) : Str :=
  if args.FlywayCommand = CleanCommand ∧
      strings.Contains args.CommandLineArgs "-cleanDisabled".toList = false then
    "-cleanDisabled=false ".toList
  else []

/-- The command line `GetExecArgsStr` assembles once validation has passed. -/
def commandLine (env : ProcessEnv) (args : Args) : Str :=
  GetFlywayExecutablePath env ++ " ".toList ++ args.FlywayCommand ++ " ".toList ++
    cleanFlag args ++ " ".toList ++ connectionFlags args ++ args.CommandLineArgs

/-- The `Env` field `Run` leaves in the record when it gets past the field-count
check. -/
def classpathEnv (args : Args) : Str :=
  if args.DriverPath = [] then [] else "CLASSPATH=".toList ++ args.DriverPath

/-- The line `Run` logs before anything else: the command line with the password
masked. -/
def maskedCommandLine (env : ProcessEnv) (args : Args) : Str :=
  strings.ReplaceAll (commandLine env args) args.Password "******".toList

/-- The plugin record as `Run` receives it from `Exec`. -/
def readyPlugin (args : Args) : FlywayPlugin :=
  { InputArgs := some args, CommandSpecificArgs := cleanFlag args }

/-- The subprocess `Run` sets up. -/
def plannedCmd (env : ProcessEnv) (args : Args) : Cmd :=
  { Name := (strings.Fields (commandLine env args)).headD []
    Args := (strings.Fields (commandLine env args)).tail
    Env := if args.DriverPath = [] then none
      else some (os.Environ env ++ ["CLASSPATH=".toList ++ args.DriverPath]) }

/-- The effects of `Run` once the subprocess has been run: the subprocess recorded,
then its outcome logged. -/
def afterRun (fx : Effects) (cmd : Cmd) (res : CmdResult) : Effects :=
  let fx := { fx with started := fx.started ++ [cmd] }
  match res.err with
  | none =>
    logInfo (logInfo fx res.Stdout) ("Command executed successfully: ".toList ++ res.Stdout)
  | some e =>
    logError (logInfo fx res.Stderr)
      ("Command execution failed: ".toList ++ res.Stderr ++ ", error: ".toList ++ e)

/-- The command string `GetExecArgsStr` assembles for the plugin as `Exec` prepares
it (`Init`, then `DoPostArgsValidationSetup`); the nil dereference, which `Init` rules
out, would give the empty string here. -/
def assembledCommand (env : ProcessEnv) (args : Args) : Str :=
  (((({} : FlywayPlugin).Init args).1.DoPostArgsValidationSetup args).1.GetExecArgsStr
    env).getD []

/-! ## Concrete environments and configurations -/

/-- An environment that only names the executable. -/
def envBin : ProcessEnv := [("FLYWAY_BIN_PATH".toList, "/flyway/flyway".toList)]

/-- An environment that names the executable and supplies the three connection
values. -/
def envFull : ProcessEnv :=
  [ ("FLYWAY_BIN_PATH".toList, "/flyway/flyway".toList),
    ("FLYWAY_URL".toList, "jdbc:mysql://h/db".toList),
    ("FLYWAY_USER".toList, "u".toList),
    ("FLYWAY_PASSWORD".toList, "p".toList) ]

/-- A subprocess that exits with status zero and prints nothing. -/
def runnerOk : CmdRunner := fun _ => {}

/-- A subprocess that cannot be started. -/
def runnerFail : CmdRunner := fun _ =>
  { Stderr := [], err := some "exec: no such file or directory".toList }

/-- The configuration of the example of the specification. -/
def argsMigrate : Args :=
  { FlywayCommand := "migrate".toList, Url := "jdbc:mysql://h/db".toList,
    UserName := "u".toList, Password := "p".toList, Locations := "filesystem:/x".toList }

/-- A `clean` configuration in dry-run mode with a driver path, as in the test
`TestUnitTcWithDriverPath`. -/
def argsClean : Args :=
  { FlywayCommand := "clean".toList, Url := "jdbc:mysql://h/db".toList,
    UserName := "u".toList, Password := "p".toList,
    DriverPath := "/harness/test/flyway-mysql-10.21.0.jar".toList, IsDryRun := true }

/-- A configuration with an unsupported command. -/
def argsDeploy : Args :=
  { FlywayCommand := "deploy".toList, Url := "jdbc:mysql://h/db".toList,
    UserName := "u".toList, Password := "p".toList,
    CommandLineArgs := "-configFiles=f".toList, IsDryRun := true }

/-- A configuration that names a command and nothing else. -/
def argsBare : Args := { FlywayCommand := "migrate".toList }

/-- A configuration with a URL but neither user name nor password. -/
def argsUrlOnly : Args := { FlywayCommand := "migrate".toList, Url := "jdbc:mysql://h/db".toList }

/-- A `migrate` configuration that takes the connection from a configuration file
and names a script location. -/
def argsConfigFile : Args :=
  { FlywayCommand := "migrate".toList, Locations := "filesystem:/x".toList,
    CommandLineArgs := "-configFiles=/flyway.conf".toList, IsDryRun := true }

/-- A `clean` configuration that takes the connection from a configuration file. -/
def argsCleanConfigFile : Args :=
  { FlywayCommand := "clean".toList,
    CommandLineArgs := "-configFiles=/flyway.conf".toList, IsDryRun := true }

/-- A `repair` configuration that takes the connection from a configuration file. -/
def argsRepairConfigFile : Args :=
  { FlywayCommand := "repair".toList,
    CommandLineArgs := "-configFiles=/flyway.conf".toList, IsDryRun := true }

/-- A configuration whose password is the mask character. -/
def argsStarPassword : Args :=
  { FlywayCommand := "migrate".toList, Url := "jdbc:mysql://h/db".toList,
    UserName := "u".toList, Password := "*".toList, IsDryRun := true }

/-- The first line of the log of a run, if there is one and it is plain text. -/
def firstLogLine (fx : Effects) : Option Str :=
  match fx.log.head? with
  | some (.text _ msg) => some msg
  | _ => none

/-- An environment that supplies the three connection values and does not name the
executable. -/
def envNoBin : ProcessEnv :=
  [ ("FLYWAY_URL".toList, "jdbc:mysql://h/db".toList),
    ("FLYWAY_USER".toList, "u".toList),
    ("FLYWAY_PASSWORD".toList, "p".toList) ]

/-- A dry-run configuration that names a command and nothing else. -/
def argsBareDry : Args := { FlywayCommand := "migrate".toList, IsDryRun := true }

/-- An optional argument of the subprocess: `name ++ value` when the value is
non-empty, nothing otherwise. -/
def optArg (name value : Str) : List Str :=
  if value = [] then [] else [name ++ value]

/-- The argument list the whitespace split is expected to give: the command, the
clean flag when it is inserted, the optional connection flags, then the fields of the
extra arguments. -/
def expectedArguments (args : Args) : List Str :=
  [args.FlywayCommand] ++
  (if args.FlywayCommand = "clean".toList ∧
      strings.Contains args.CommandLineArgs "-cleanDisabled".toList = false
    then ["-cleanDisabled=false".toList] else []) ++
  optArg "-url=".toList args.Url ++ optArg "-user=".toList args.UserName ++
  optArg "-password=".toList args.Password ++ optArg "-locations=".toList args.Locations ++
  strings.Fields args.CommandLineArgs

/-- The number of positions at which two consecutive space characters stand. -/
def doubleSpaces : Str → Nat
  | c :: d :: s => (if c = ' ' ∧ d = ' ' then 1 else 0) + doubleSpaces (d :: s)
  | _ => 0

/-- The configuration of the specification's example with the extra argument `-X`, as
in `TestUnitTcWithExtraArgsVerbose`. -/
def argsVerbose : Args :=
  { FlywayCommand := "migrate".toList, Url := "jdbc:mysql://h/db".toList,
    UserName := "u".toList, Password := "p".toList, Locations := "filesystem:/x".toList,
    CommandLineArgs := "-X".toList }

/-- A configuration whose password contains a space. -/
def argsSpacedPassword : Args :=
  { FlywayCommand := "migrate".toList, Url := "jdbc:mysql://h/db".toList,
    UserName := "u".toList, Password := "top secret".toList }

/-- The part of a string that precedes its first whitespace character. -/
def beforeSpace (s : Str) : Str :=
  s.takeWhile (fun c => !unicode.IsSpace c)

/-- The part of a string that starts at its first whitespace character. -/
def fromSpace (s : Str) : Str :=
  s.dropWhile (fun c => !unicode.IsSpace c)

/-- The arguments the whitespace split makes of the password flag: `-password=` with
the part of the password before its first whitespace character, then the fields of the
rest of the password. -/
def passwordArguments (password : Str) : List Str :=
  ("-password=".toList ++ beforeSpace password) :: strings.Fields (fromSpace password)

/-- The part of the assembled command string that precedes the password flag. -/
def beforePassword (env : ProcessEnv) (args : Args) : Str :=
  os.Getenv env "FLYWAY_BIN_PATH".toList ++ " ".toList ++ args.FlywayCommand ++ " ".toList ++
    (if args.FlywayCommand = "clean".toList ∧
        strings.Contains args.CommandLineArgs "-cleanDisabled".toList = false
      then "-cleanDisabled=false ".toList else []) ++
    " ".toList ++ optFlag "-url=".toList args.Url ++ optFlag "-user=".toList args.UserName

/-- The part of the assembled command string that follows the password flag. -/
def afterPassword (args : Args) : Str :=
  optFlag "-locations=".toList args.Locations ++ args.CommandLineArgs

/-- A configuration whose password ends in a space. -/
def argsTrailingSpace : Args :=
  { FlywayCommand := "migrate".toList, Url := "jdbc:mysql://h/db".toList,
    UserName := "u".toList, Password := "x ".toList }

/-! ## Lemmas on validation -/

theorem lookup_known (c : Str) :
    (knownCommandsMap.lookup c).isSome = true ↔ c ∈ supportedCommands := by
  simp only [supportedCommands, knownCommandsMap, List.lookup, List.mem_cons,
    List.mem_singleton, List.not_mem_nil, or_false]
  by_cases h1 : c = MigrateCommand
  · subst h1; simp
  by_cases h2 : c = CleanCommand
  · subst h2; decide
  by_cases h3 : c = BaselineCommand
  · subst h3; decide
  by_cases h4 : c = RepairCommand
  · subst h4; decide
  by_cases h5 : c = ValidateCommand
  · subst h5; decide
  have e1 : (c == MigrateCommand) = false := by simpa using h1
  have e2 : (c == CleanCommand) = false := by simpa using h2
  have e3 : (c == BaselineCommand) = false := by simpa using h3
  have e4 : (c == RepairCommand) = false := by simpa using h4
  have e5 : (c == ValidateCommand) = false := by simpa using h5
  simp [e1, e2, e3, e4, e5, h1, h2, h3, h4, h5]

theorem supported_ne_nil {c : Str} (h : c ∈ supportedCommands) : c ≠ [] := by
  intro hc
  subst hc
  revert h
  decide

theorem validate_eq (env : ProcessEnv) (args : Args) :
    ∃ fx, ({ InputArgs := some args } : FlywayPlugin).ValidateAndProcessArgs env args {} =
        some (firstError env args, fx) ∧ (firstError env args = none → fx = {}) := by
  simp only [FlywayPlugin.ValidateAndProcessArgs, FlywayPlugin.IsCommandValid,
    FlywayPlugin.IsUnknownCommand, FlywayPlugin.CheckMandatoryArgs, checkMandatoryLoop,
    firstError, Option.bind_eq_bind, Option.some_bind, Option.pure_def]
  generalize (knownCommandsMap.lookup args.FlywayCommand).isNone = unknown
  generalize strings.Contains args.CommandLineArgs ConfigFileOpt = viaFile
  generalize os.Getenv env "FLYWAY_URL".toList = eUrl
  generalize os.Getenv env "FLYWAY_USER".toList = eUser
  generalize os.Getenv env "FLYWAY_PASSWORD".toList = ePass
  by_cases h0 : args.FlywayCommand = []
  · simp [h0]
  cases unknown
  · cases viaFile
    · by_cases h1 : eUrl = [] ∧ args.Url = []
      · simp [h0, h1]
      by_cases h2 : eUser = [] ∧ args.UserName = []
      · simp [h0, h1, h2]
      by_cases h3 : ePass = [] ∧ args.Password = []
      · simp [h0, h1, h2, h3]
      · simp [h0, h1, h2, h3]
    · simp [h0]
  · simp [h0]

theorem validationError_eq (env : ProcessEnv) (args : Args) :
    validationError env args = firstError env args := by
  obtain ⟨fx, h, -⟩ := validate_eq env args
  simp only [validationError, FlywayPlugin.Init]
  rw [h]

theorem passesValidation_iff_firstError (env : ProcessEnv) (args : Args) :
    passesValidation env args = true ↔ firstError env args = none := by
  obtain ⟨fx, h, -⟩ := validate_eq env args
  simp only [passesValidation, FlywayPlugin.Init]
  rw [h]
  cases firstError env args <;> simp

theorem passesValidation_iff (env : ProcessEnv) (args : Args) :
    passesValidation env args = true ↔
      args.FlywayCommand ∈ supportedCommands ∧
      (strings.Contains args.CommandLineArgs ConfigFileOpt = true ∨
        (supplied env "FLYWAY_URL".toList args.Url ∧
         supplied env "FLYWAY_USER".toList args.UserName ∧
         supplied env "FLYWAY_PASSWORD".toList args.Password)) := by
  rw [passesValidation_iff_firstError, ← lookup_known]
  simp only [firstError, supplied]
  by_cases h0 : args.FlywayCommand = []
  · have hk : (knownCommandsMap.lookup args.FlywayCommand).isSome = false := by
      rw [h0]; decide
    rw [hk]
    simp [h0]
  generalize (knownCommandsMap.lookup args.FlywayCommand) = known
  generalize strings.Contains args.CommandLineArgs ConfigFileOpt = viaFile
  generalize os.Getenv env "FLYWAY_URL".toList = eUrl
  generalize os.Getenv env "FLYWAY_USER".toList = eUser
  generalize os.Getenv env "FLYWAY_PASSWORD".toList = ePass
  cases known <;> cases viaFile <;> simp only [h0, if_false, if_true, Option.isNone_none,
    Option.isNone_some, Option.isSome_none, Option.isSome_some, Bool.false_eq_true, false_and,
    true_and, true_or, false_or, reduceCtorEq, ne_eq]
  split_ifs <;> simp_all
  all_goals tauto

/-! ## Lemmas on the command builder and on `Run` -/

theorem doPost_eq (args : Args) :
    (({ InputArgs := some args } : FlywayPlugin).DoPostArgsValidationSetup args) =
      ({ InputArgs := some args, CommandSpecificArgs := cleanFlag args }, none) := by
  simp only [FlywayPlugin.DoPostArgsValidationSetup, cleanFlag]
  by_cases h : args.FlywayCommand = CleanCommand
  · cases hc : strings.Contains args.CommandLineArgs "-cleanDisabled".toList <;> simp [h, hc]
  · simp [h]

theorem getExecArgsStr_eq (env : ProcessEnv) (pi : ProcessingInfo) (args : Args) :
    ({ toProcessingInfo := pi, InputArgs := some args } : FlywayPlugin).GetExecArgsStr env =
      some (GetFlywayExecutablePath env ++ " ".toList ++ args.FlywayCommand ++ " ".toList ++
        pi.CommandSpecificArgs ++ " ".toList ++ connectionFlags args ++ args.CommandLineArgs) := by
  simp only [FlywayPlugin.GetExecArgsStr, connectionFlags, optFlag, Option.bind_eq_bind,
    Option.some_bind, Option.pure_def, bne_iff_ne, ne_eq, ite_not, List.nil_append,
    List.append_assoc, Option.some.injEq]
  by_cases h1 : args.Url = [] <;> by_cases h2 : args.UserName = [] <;>
    by_cases h3 : args.Password = [] <;> by_cases h4 : args.Locations = [] <;>
    simp only [h1, h2, h3, h4, if_true, if_false, List.nil_append, List.append_assoc]

theorem run_invalid (env : ProcessEnv) (runner : CmdRunner) (args : Args) (fx : Effects)
    (h : (strings.Fields (commandLine env args)).length < 2) :
    (readyPlugin args).Run env runner fx =
      some ({ readyPlugin args with ExecCommand := commandLine env args },
        some (.invalidCommand (commandLine env args)),
        logInfo fx ("Executing command: ".toList ++ maskedCommandLine env args)) := by
  have hg := getExecArgsStr_eq env (readyPlugin args).toProcessingInfo args
  simp only [readyPlugin] at hg ⊢
  simp only [FlywayPlugin.Run, hg, Option.bind_eq_bind, Option.some_bind, Option.pure_def]
  simp only [commandLine, maskedCommandLine] at h ⊢
  simp only [h, if_true]

theorem run_valid (env : ProcessEnv) (runner : CmdRunner) (args : Args) (fx : Effects)
    (h : 2 ≤ (strings.Fields (commandLine env args)).length) :
    (readyPlugin args).Run env runner fx =
      some ({ readyPlugin args with
          ExecCommand := commandLine env args, Env := classpathEnv args },
        none,
        if args.IsDryRun then
          logInfo fx ("Executing command: ".toList ++ maskedCommandLine env args)
        else
          afterRun (logInfo fx ("Executing command: ".toList ++ maskedCommandLine env args))
            (plannedCmd env args) (runner (plannedCmd env args))) := by
  have hg := getExecArgsStr_eq env (readyPlugin args).toProcessingInfo args
  have h2 : ¬ (strings.Fields (commandLine env args)).length < 2 := by omega
  simp only [readyPlugin] at hg ⊢
  simp only [FlywayPlugin.Run, hg, Option.bind_eq_bind, Option.some_bind, Option.pure_def]
  simp only [commandLine, maskedCommandLine, plannedCmd, classpathEnv, afterRun] at h2 ⊢
  simp only [h2, if_false]
  by_cases hd : args.DriverPath = []
  · cases hdry : args.IsDryRun <;> simp [hd]
  · have hpos : args.DriverPath.length > 0 := List.length_pos.mpr hd
    cases hdry : args.IsDryRun <;> simp [hd, hpos]

theorem exec_of_firstError_none (env : ProcessEnv) (runner : CmdRunner) (args : Args)
    (h : firstError env args = none) :
    Exec env runner args = (readyPlugin args).Run env runner {} := by
  obtain ⟨fx, hv, hfx⟩ := validate_eq env args
  have hfx := hfx h
  subst hfx
  rw [h] at hv
  simp only [Exec, Exec.body, FlywayPlugin.Init, hv, doPost_eq, readyPlugin, Exec.deferred,
    FlywayPlugin.DeInit, Option.bind_eq_bind, Option.some_bind, Option.pure_def,
    Option.isSome_none, Bool.false_eq_true, if_false]
  cases hr : FlywayPlugin.Run env runner
      { InputArgs := some args, CommandSpecificArgs := cleanFlag args } {} with
  | none => simp
  | some r =>
    obtain ⟨p, err, fx⟩ := r
    cases err <;> simp

theorem exec_of_firstError_some (env : ProcessEnv) (runner : CmdRunner) (args : Args)
    (e : PluginError) (h : firstError env args = some e) :
    ∃ fx, Exec env runner args = some ({ InputArgs := some args }, some e, fx) := by
  obtain ⟨fx, hv, -⟩ := validate_eq env args
  rw [h] at hv
  refine ⟨fx, ?_⟩
  simp only [Exec, Exec.body, FlywayPlugin.Init, hv, Exec.deferred,
    FlywayPlugin.DeInit, Option.bind_eq_bind, Option.some_bind, Option.pure_def,
    Option.isSome_none, Option.isSome_some, Bool.false_eq_true, if_false, if_true]

theorem assembledCommand_eq (env : ProcessEnv) (args : Args) :
    assembledCommand env args = commandLine env args := by
  have hg := getExecArgsStr_eq env (readyPlugin args).toProcessingInfo args
  simp only [readyPlugin] at hg
  simp only [assembledCommand, FlywayPlugin.Init, doPost_eq, hg, Option.getD_some, commandLine]

theorem exec_execCommand (env : ProcessEnv) (runner : CmdRunner) (args : Args)
    (hv : passesValidation env args = true) :
    (Exec env runner args).map (fun r => r.1.ExecCommand) = some (commandLine env args) := by
  rw [passesValidation_iff_firstError] at hv
  rw [exec_of_firstError_none env runner args hv]
  by_cases h : (strings.Fields (commandLine env args)).length < 2
  · rw [run_invalid env runner args {} h]; rfl
  · rw [run_valid env runner args {} (by omega)]; rfl

theorem cleanFlag_of_ne {args : Args} (h : args.FlywayCommand ≠ CleanCommand) :
    cleanFlag args = [] := by
  simp [cleanFlag, h]

/-! ## Lemmas on substrings and on masking -/

theorem contains_nil (sub : Str) : strings.Contains [] sub = sub.isEmpty := by
  cases sub <;> rfl

theorem contains_cons (c : Char) (s sub : Str) :
    strings.Contains (c :: s) sub = (strings.HasPrefix (c :: s) sub || strings.Contains s sub) := by
  simp only [strings.Contains, strings.Index]
  cases strings.HasPrefix (c :: s) sub
  · cases strings.Index s sub <;> rfl
  · rfl

theorem hasPrefix_cons_of_not_mem (c : Char) (s sub : Str) (hsub : sub ≠ [])
    (hc : c ∉ sub) : strings.HasPrefix (c :: s) sub = false := by
  cases sub with
  | nil => exact absurd rfl hsub
  | cons d sub =>
    have hcd : c ≠ d := fun h => hc (h ▸ List.mem_cons_self _ _)
    simp [strings.HasPrefix, hcd]

theorem contains_append_of_disjoint (pre r sub : Str) (hsub : sub ≠ [])
    (hdisj : ∀ x ∈ pre, x ∉ sub) (hr : strings.Contains r sub = false) :
    strings.Contains (pre ++ r) sub = false := by
  induction pre with
  | nil => exact hr
  | cons x pre ih =>
    rw [List.cons_append, contains_cons,
      hasPrefix_cons_of_not_mem x _ sub hsub (hdisj x (List.mem_cons_self _ _)),
      ih (fun y hy => hdisj y (List.mem_cons_of_mem _ hy))]
    rfl

theorem hasPrefix_of_replaceScan (old new : Str) (hnew : new ≠ []) :
    ∀ (s pre : Str), (∀ x ∈ pre, x ∉ new) →
      strings.HasPrefix (strings.replaceScan old new 0 s) pre = true →
      strings.HasPrefix s pre = true := by
  intro s
  induction s with
  | nil =>
    intro pre _ h
    simpa [strings.replaceScan] using h
  | cons c s ih =>
    intro pre hpre h
    cases pre with
    | nil => rfl
    | cons d pre =>
      by_cases hm : strings.HasPrefix (c :: s) old = true
      · exfalso
        cases new with
        | nil => exact hnew rfl
        | cons n new =>
          simp only [strings.replaceScan, hm, if_true, List.cons_append, strings.HasPrefix,
            Bool.and_eq_true, beq_iff_eq] at h
          exact hpre d (List.mem_cons_self _ _) (h.1 ▸ List.mem_cons_self _ _)
      · simp only [strings.replaceScan, hm, if_false, strings.HasPrefix, Bool.and_eq_true,
          beq_iff_eq, Bool.false_eq_true] at h ⊢
        exact ⟨h.1, ih pre (fun x hx => hpre x (List.mem_cons_of_mem _ hx)) h.2⟩

theorem replaceScan_not_contains (old new : Str) (hold : old ≠ []) (hnew : new ≠ [])
    (hdisj : ∀ x ∈ new, x ∉ old) :
    ∀ (s : Str) (k : Nat), strings.Contains (strings.replaceScan old new k s) old = false := by
  have hdisj2 : ∀ x ∈ old, x ∉ new := fun x hx hn => hdisj x hn hx
  intro s
  induction s with
  | nil =>
    intro k
    cases k <;> cases old <;> simp_all [strings.replaceScan, contains_nil]
  | cons c s ih =>
    intro k
    cases k with
    | succ k => simpa [strings.replaceScan] using ih k
    | zero =>
      by_cases hm : strings.HasPrefix (c :: s) old = true
      · simp only [strings.replaceScan, hm, if_true]
        exact contains_append_of_disjoint new _ old hold hdisj (ih _)
      · simp only [strings.replaceScan, hm, if_false, Bool.false_eq_true]
        rw [contains_cons, ih 0, Bool.or_false]
        cases hp : strings.HasPrefix (c :: strings.replaceScan old new 0 s) old with
        | false => rfl
        | true =>
          exfalso
          apply hm
          have := hasPrefix_of_replaceScan old new hnew (c :: s) old hdisj2
          apply this
          simp only [strings.replaceScan, hm, if_false, Bool.false_eq_true]
          exact hp

theorem replaceAll_not_contains (s old : Str) (hold : old ≠ []) (hstar : '*' ∉ old) :
    strings.Contains (strings.ReplaceAll s old "******".toList) old = false := by
  have he : old.isEmpty = false := by cases old <;> simp_all
  simp only [strings.ReplaceAll, he, Bool.false_eq_true, if_false]
  apply replaceScan_not_contains old _ hold (by decide)
  intro x hx
  have : x = '*' := by
    simp only [String.toList, List.mem_cons, List.mem_singleton, List.not_mem_nil, or_false,
      or_self] at hx
    exact hx
  rw [this]
  exact hstar

/-! ## The claims -/

/-- C1: for the commands migrate, baseline, repair and validate, a configuration that
passes validation makes `Exec` record the command string
`exe ++ " " ++ command ++ "  " ++ U ++ N ++ P ++ L ++ extra`: the executable path read
from `FLYWAY_BIN_PATH`, the command, two spaces, the optional `-url=`, `-user=`,
`-password=` and `-locations=` flags in this order, then the raw extra arguments. -/
theorem exec_command_fixed_order (env : ProcessEnv) (runner : CmdRunner) (args : Args)
    (hcmd : args.FlywayCommand ∈
      [MigrateCommand, BaselineCommand, RepairCommand, ValidateCommand])
    (hv : passesValidation env args = true) :
    (Exec env runner args).map (fun r => r.1.ExecCommand) =
      some (os.Getenv env "FLYWAY_BIN_PATH".toList ++ " ".toList ++ args.FlywayCommand ++
        "  ".toList ++ optFlag "-url=".toList args.Url ++
        optFlag "-user=".toList args.UserName ++ optFlag "-password=".toList args.Password ++
        optFlag "-locations=".toList args.Locations ++ args.CommandLineArgs) := by
  have hne : args.FlywayCommand ≠ CleanCommand := by
    intro h
    rw [h] at hcmd
    revert hcmd
    decide
  rw [exec_execCommand env runner args hv]
  simp only [commandLine, cleanFlag_of_ne hne, connectionFlags, GetFlywayExecutablePath,
    List.append_assoc, List.nil_append]
  rfl

/-- Witness of C1: the example of the specification, with the executable at
`/flyway/flyway`. -/
theorem exec_command_fixed_order_witness :
    argsMigrate.FlywayCommand ∈
        [MigrateCommand, BaselineCommand, RepairCommand, ValidateCommand] ∧
      passesValidation envBin argsMigrate = true ∧
      (Exec envBin runnerOk argsMigrate).map (fun r => r.1.ExecCommand) =
        some ("/flyway/flyway migrate  -url=jdbc:mysql://h/db -user=u -password=p " ++
          "-locations=filesystem:/x ").toList :=
  ⟨by decide, by decide,
    (exec_command_fixed_order envBin runnerOk argsMigrate (by decide) (by decide)).trans
      (by decide)⟩

/-- C2: for the command clean, a configuration that passes validation makes `Exec`
record `exe ++ " clean " ++ s ++ " " ++ U ++ N ++ P ++ L ++ extra`, where `s` is
`"-cleanDisabled=false "` when the extra arguments do not contain `-cleanDisabled` and
is empty when they do. -/
theorem exec_command_clean (env : ProcessEnv) (runner : CmdRunner) (args : Args)
    (hcmd : args.FlywayCommand = "clean".toList)
    (hv : passesValidation env args = true) :
    (Exec env runner args).map (fun r => r.1.ExecCommand) =
      some (os.Getenv env "FLYWAY_BIN_PATH".toList ++ " clean ".toList ++
        (if strings.Contains args.CommandLineArgs "-cleanDisabled".toList = true then []
          else "-cleanDisabled=false ".toList) ++
        " ".toList ++ optFlag "-url=".toList args.Url ++
        optFlag "-user=".toList args.UserName ++ optFlag "-password=".toList args.Password ++
        optFlag "-locations=".toList args.Locations ++ args.CommandLineArgs) := by
  have hc : args.FlywayCommand = CleanCommand := hcmd
  rw [exec_execCommand env runner args hv]
  simp only [commandLine, cleanFlag, connectionFlags, GetFlywayExecutablePath, hc, true_and]
  cases strings.Contains args.CommandLineArgs "-cleanDisabled".toList <;>
    simp [CleanCommand]

/-- Witness of C2: the configuration of `TestUnitTcWithDriverPath`. -/
theorem exec_command_clean_witness :
    argsClean.FlywayCommand = "clean".toList ∧
      passesValidation envBin argsClean = true ∧
      (Exec envBin runnerOk argsClean).map (fun r => r.1.ExecCommand) =
        some ("/flyway/flyway clean -cleanDisabled=false  -url=jdbc:mysql://h/db " ++
          "-user=u -password=p ").toList :=
  ⟨by decide, by decide,
    (exec_command_clean envBin runnerOk argsClean (by decide) (by decide)).trans
      (by decide)⟩

/-- C3: when the command name is empty or is not one of the five supported commands,
`Exec` returns an error (`Command is empty` or `unknown command`), whatever the other
fields hold, and the record it returns has an empty `ExecCommand`, `Env` and
`CommandSpecificArgs`. -/
theorem exec_rejects_unknown_command (env : ProcessEnv) (runner : CmdRunner) (args : Args)
    (hcmd : args.FlywayCommand = [] ∨ args.FlywayCommand ∉ supportedCommands) :
    ∃ p e fx, Exec env runner args = some (p, some e, fx) ∧
      (e = .commandEmpty ∨ e = .unknownCommand args.FlywayCommand) ∧
      p.ExecCommand = [] ∧ p.Env = [] ∧ p.CommandSpecificArgs = [] := by
  have hfe : firstError env args = some .commandEmpty ∨
      firstError env args = some (.unknownCommand args.FlywayCommand) := by
    by_cases h0 : args.FlywayCommand = []
    · left; simp [firstError, h0]
    · right
      have hn : args.FlywayCommand ∉ supportedCommands := hcmd.resolve_left h0
      rw [← lookup_known] at hn
      have hk : (knownCommandsMap.lookup args.FlywayCommand).isNone = true := by
        cases hl : knownCommandsMap.lookup args.FlywayCommand with
        | none => rfl
        | some v => rw [hl] at hn; simp at hn
      simp [firstError, h0, hk]
  rcases hfe with h | h
  · obtain ⟨fx, hx⟩ := exec_of_firstError_some env runner args _ h
    exact ⟨_, _, fx, hx, Or.inl rfl, rfl, rfl, rfl⟩
  · obtain ⟨fx, hx⟩ := exec_of_firstError_some env runner args _ h
    exact ⟨_, _, fx, hx, Or.inr rfl, rfl, rfl, rfl⟩

/-- Witness of C3: the command `deploy`, with a configuration file named in the extra
arguments and the dry-run flag set. -/
theorem exec_rejects_unknown_command_witness :
    (argsDeploy.FlywayCommand = [] ∨ argsDeploy.FlywayCommand ∉ supportedCommands) ∧
      ∃ p e fx, Exec envFull runnerOk argsDeploy = some (p, some e, fx) ∧
        (e = .commandEmpty ∨ e = .unknownCommand argsDeploy.FlywayCommand) ∧
        p.ExecCommand = [] ∧ p.Env = [] ∧ p.CommandSpecificArgs = [] :=
  ⟨by decide, exec_rejects_unknown_command envFull runnerOk argsDeploy (by decide)⟩

theorem firstError_of_supported (env : ProcessEnv) (args : Args)
    (hcmd : args.FlywayCommand ∈ supportedCommands) :
    firstError env args =
      if strings.Contains args.CommandLineArgs ConfigFileOpt then none
      else if os.Getenv env "FLYWAY_URL".toList = [] ∧ args.Url = [] then
        some (.missingMandatoryArgument "url".toList "FLYWAY_URL".toList)
      else if os.Getenv env "FLYWAY_USER".toList = [] ∧ args.UserName = [] then
        some (.missingMandatoryArgument "username".toList "FLYWAY_USER".toList)
      else if os.Getenv env "FLYWAY_PASSWORD".toList = [] ∧ args.Password = [] then
        some (.missingMandatoryArgument "password".toList "FLYWAY_PASSWORD".toList)
      else none := by
  have h0 : args.FlywayCommand ≠ [] := supported_ne_nil hcmd
  have hk : (knownCommandsMap.lookup args.FlywayCommand).isNone = false := by
    rw [← lookup_known] at hcmd
    cases hl : knownCommandsMap.lookup args.FlywayCommand with
    | none => rw [hl] at hcmd; simp at hcmd
    | some v => rfl
  simp only [firstError, h0, hk, if_false, Bool.false_eq_true]

/-- C4 as stated fails: with `FLYWAY_URL`, `FLYWAY_USER` and `FLYWAY_PASSWORD` set in
the environment, a `migrate` configuration whose URL, user name and password are empty
and whose extra arguments name no configuration file passes validation, and `Exec`
returns without error. -/
theorem missing_args_counterexample :
    argsBare.FlywayCommand ∈ supportedCommands ∧ argsBare.Url = [] ∧
      argsBare.UserName = [] ∧ argsBare.Password = [] ∧
      strings.Contains argsBare.CommandLineArgs "-configFiles".toList = false ∧
      validationError envFull argsBare = none ∧
      (Exec envFull runnerOk argsBare).map (fun r => r.2.1) = some none := by
  decide

/-- C4, amended: when at least one of `FLYWAY_URL`, `FLYWAY_USER`, `FLYWAY_PASSWORD` is
unset or empty in the environment, a configuration with a supported command, empty
URL, user name and password, and extra arguments that do not contain `-configFiles`
fails validation with the missing-mandatory-argument error, and `Exec` returns that
error. -/
theorem missing_args_rejected (env : ProcessEnv) (runner : CmdRunner) (args : Args)
    (hcmd : args.FlywayCommand ∈ supportedCommands)
    (hu : args.Url = []) (hn : args.UserName = []) (hp : args.Password = [])
    (hc : strings.Contains args.CommandLineArgs "-configFiles".toList = false)
    (henv : os.Getenv env "FLYWAY_URL".toList = [] ∨ os.Getenv env "FLYWAY_USER".toList = [] ∨
      os.Getenv env "FLYWAY_PASSWORD".toList = []) :
    ∃ hint envName,
      validationError env args = some (.missingMandatoryArgument hint envName) ∧
      ∃ p fx, Exec env runner args = some (p, some (.missingMandatoryArgument hint envName), fx) := by
  have hc2 : strings.Contains args.CommandLineArgs ConfigFileOpt = false := hc
  have hfe : ∃ hint envName,
      firstError env args = some (.missingMandatoryArgument hint envName) := by
    rw [firstError_of_supported env args hcmd]
    simp only [hc2, hu, hn, hp, and_true, Bool.false_eq_true, if_false]
    split_ifs with h1 h2 h3
    · exact ⟨_, _, rfl⟩
    · exact ⟨_, _, rfl⟩
    · exact ⟨_, _, rfl⟩
    · rcases henv with h | h | h <;> contradiction
  obtain ⟨hint, envName, hfe⟩ := hfe
  refine ⟨hint, envName, ?_, ?_⟩
  · rw [validationError_eq, hfe]
  · obtain ⟨fx, hx⟩ := exec_of_firstError_some env runner args _ hfe
    exact ⟨_, fx, hx⟩

/-- Witness of C4, amended: the bare `migrate` configuration in an environment that
only names the executable, as in `TestUnitTcMissingRequiredInputs`. -/
theorem missing_args_rejected_witness :
    argsBare.FlywayCommand ∈ supportedCommands ∧
      ∃ hint envName,
        validationError envBin argsBare = some (.missingMandatoryArgument hint envName) ∧
        ∃ p fx, Exec envBin runnerOk argsBare =
          some (p, some (.missingMandatoryArgument hint envName), fx) :=
  ⟨by decide, missing_args_rejected envBin runnerOk argsBare (by decide) (by decide)
    (by decide) (by decide) (by decide) (by decide)⟩

/-- C5 as stated fails: with no connection variable in the environment, a `migrate`
configuration with a URL but no user name fails validation although one of URL, user
name and password is non-empty. -/
theorem one_field_counterexample :
    argsUrlOnly.FlywayCommand ∈ supportedCommands ∧ argsUrlOnly.Url ≠ [] ∧
      passesValidation envBin argsUrlOnly = false ∧
      validationError envBin argsUrlOnly =
        some (.missingMandatoryArgument "username".toList "FLYWAY_USER".toList) := by
  decide

/-- C5, amended: for a supported command, validation fails if and only if the extra
arguments contain no `-configFiles` and at least one of URL, user name and password is
empty while its environment variable (`FLYWAY_URL`, `FLYWAY_USER`, `FLYWAY_PASSWORD`)
is unset or empty too; in particular validation succeeds whenever URL, user name and
password are all non-empty. No other field is looked at. -/
theorem validation_fails_iff (env : ProcessEnv) (args : Args)
    (hcmd : args.FlywayCommand ∈ supportedCommands) :
    (passesValidation env args = false ↔
      strings.Contains args.CommandLineArgs "-configFiles".toList = false ∧
      ((os.Getenv env "FLYWAY_URL".toList = [] ∧ args.Url = []) ∨
       (os.Getenv env "FLYWAY_USER".toList = [] ∧ args.UserName = []) ∨
       (os.Getenv env "FLYWAY_PASSWORD".toList = [] ∧ args.Password = []))) ∧
    (args.Url ≠ [] → args.UserName ≠ [] → args.Password ≠ [] →
      passesValidation env args = true) := by
  have key := passesValidation_iff env args
  simp only [hcmd, true_and, supplied, ConfigFileOpt] at key
  constructor
  · rw [← Bool.not_eq_true, key]
    cases strings.Contains args.CommandLineArgs "-configFiles".toList
    · simp only [Bool.false_eq_true, false_or, true_and, ne_eq]
      tauto
    · simp
  · intro h1 h2 h3
    rw [key]
    exact Or.inr ⟨Or.inr h1, Or.inr h2, Or.inr h3⟩

/-- Witness of C5, amended, at the configuration of the specification's example. -/
theorem validation_fails_iff_witness :
    argsMigrate.FlywayCommand ∈ supportedCommands ∧
    ((passesValidation envBin argsMigrate = false ↔
      strings.Contains argsMigrate.CommandLineArgs "-configFiles".toList = false ∧
      ((os.Getenv envBin "FLYWAY_URL".toList = [] ∧ argsMigrate.Url = []) ∨
       (os.Getenv envBin "FLYWAY_USER".toList = [] ∧ argsMigrate.UserName = []) ∨
       (os.Getenv envBin "FLYWAY_PASSWORD".toList = [] ∧ argsMigrate.Password = []))) ∧
    (argsMigrate.Url ≠ [] → argsMigrate.UserName ≠ [] → argsMigrate.Password ≠ [] →
      passesValidation envBin argsMigrate = true)) :=
  ⟨by decide, validation_fails_iff envBin argsMigrate (by decide)⟩

/-- C6 as stated fails in two ways: with a configuration file named in the extra
arguments and URL, user name and password empty, a non-empty locations field still
yields a `-locations=` flag, and the command clean still gets `-cleanDisabled=false`;
in neither case is the command string `exe ++ " " ++ command ++ "  " ++ extra`. -/
theorem config_file_counterexample :
    (argsConfigFile.FlywayCommand ∈ supportedCommands ∧ argsConfigFile.Url = [] ∧
      argsConfigFile.UserName = [] ∧ argsConfigFile.Password = [] ∧
      strings.Contains argsConfigFile.CommandLineArgs "-configFiles".toList = true ∧
      (Exec envBin runnerOk argsConfigFile).map (fun r => r.1.ExecCommand) =
        some ("/flyway/flyway migrate  -locations=filesystem:/x " ++
          "-configFiles=/flyway.conf").toList ∧
      (Exec envBin runnerOk argsConfigFile).map (fun r => r.1.ExecCommand) ≠
        some (os.Getenv envBin "FLYWAY_BIN_PATH".toList ++ " ".toList ++
          argsConfigFile.FlywayCommand ++ "  ".toList ++ argsConfigFile.CommandLineArgs)) ∧
    (argsCleanConfigFile.FlywayCommand ∈ supportedCommands ∧ argsCleanConfigFile.Url = [] ∧
      argsCleanConfigFile.UserName = [] ∧ argsCleanConfigFile.Password = [] ∧
      strings.Contains argsCleanConfigFile.CommandLineArgs "-configFiles".toList = true ∧
      (Exec envBin runnerOk argsCleanConfigFile).map (fun r => r.1.ExecCommand) =
        some ("/flyway/flyway clean -cleanDisabled=false  " ++
          "-configFiles=/flyway.conf").toList ∧
      (Exec envBin runnerOk argsCleanConfigFile).map (fun r => r.1.ExecCommand) ≠
        some (os.Getenv envBin "FLYWAY_BIN_PATH".toList ++ " ".toList ++
          argsCleanConfigFile.FlywayCommand ++ "  ".toList ++
          argsCleanConfigFile.CommandLineArgs)) := by
  decide

/-- C6, amended: for a supported command, empty URL, user name and password, and
extra arguments that contain `-configFiles`, validation succeeds and `Exec` records
`exe ++ " " ++ command ++ " " ++ s ++ " " ++ L ++ extra`, where `s` is
`"-cleanDisabled=false "` for the command clean when the extra arguments lack
`-cleanDisabled` (empty otherwise) and `L` is the `-locations=` flag of a non-empty
locations field (empty otherwise): the builder adds no `-url=`, `-user=` or
`-password=` flag. When moreover the locations field is empty and `s` is empty, the
command string is `exe ++ " " ++ command ++ "  " ++ extra`. -/
theorem config_file_command (env : ProcessEnv) (runner : CmdRunner) (args : Args)
    (hcmd : args.FlywayCommand ∈ supportedCommands)
    (hu : args.Url = []) (hn : args.UserName = []) (hp : args.Password = [])
    (hc : strings.Contains args.CommandLineArgs "-configFiles".toList = true) :
    passesValidation env args = true ∧
    (Exec env runner args).map (fun r => r.1.ExecCommand) =
      some (os.Getenv env "FLYWAY_BIN_PATH".toList ++ " ".toList ++ args.FlywayCommand ++
        " ".toList ++
        (if args.FlywayCommand = "clean".toList ∧
            strings.Contains args.CommandLineArgs "-cleanDisabled".toList = false
          then "-cleanDisabled=false ".toList else []) ++
        " ".toList ++ optFlag "-locations=".toList args.Locations ++ args.CommandLineArgs) ∧
    (args.Locations = [] →
      (args.FlywayCommand ≠ "clean".toList ∨
        strings.Contains args.CommandLineArgs "-cleanDisabled".toList = true) →
      (Exec env runner args).map (fun r => r.1.ExecCommand) =
        some (os.Getenv env "FLYWAY_BIN_PATH".toList ++ " ".toList ++ args.FlywayCommand ++
          "  ".toList ++ args.CommandLineArgs)) := by
  have hv : passesValidation env args = true :=
    (passesValidation_iff env args).mpr ⟨hcmd, Or.inl hc⟩
  have hx := exec_execCommand env runner args hv
  have hflags : connectionFlags args = optFlag "-locations=".toList args.Locations := by
    simp [connectionFlags, optFlag, hu, hn, hp]
  refine ⟨hv, ?_, ?_⟩
  · rw [hx]
    simp only [commandLine, hflags, cleanFlag, GetFlywayExecutablePath, CleanCommand]
  · intro hl hs
    rw [hx]
    have hcf : cleanFlag args = [] := by
      unfold cleanFlag
      rw [if_neg]
      rintro ⟨h1, h2⟩
      rcases hs with h | h
      · exact h h1
      · rw [h] at h2
        exact Bool.noConfusion h2
    simp only [commandLine, hflags, hcf, GetFlywayExecutablePath, hl, optFlag, if_true,
      List.append_nil, List.append_assoc, List.nil_append]
    rfl

/-- Witness of C6, amended: a `repair` configuration that names a configuration file
and nothing else. -/
theorem config_file_command_witness :
    argsRepairConfigFile.FlywayCommand ∈ supportedCommands ∧
    passesValidation envBin argsRepairConfigFile = true ∧
    (Exec envBin runnerOk argsRepairConfigFile).map (fun r => r.1.ExecCommand) =
      some "/flyway/flyway repair  -configFiles=/flyway.conf".toList :=
  have h := config_file_command envBin runnerOk argsRepairConfigFile (by decide) (by decide)
    (by decide) (by decide) (by decide)
  ⟨by decide, h.1, (h.2.2 (by decide) (by decide)).trans (by decide)⟩

theorem exec_first_log_line (env : ProcessEnv) (runner : CmdRunner) (args : Args)
    (hv : passesValidation env args = true) :
    ∃ p err fx, Exec env runner args = some (p, err, fx) ∧
      p.ExecCommand = commandLine env args ∧
      firstLogLine fx = some ("Executing command: ".toList ++
        strings.ReplaceAll (commandLine env args) args.Password "******".toList) := by
  rw [passesValidation_iff_firstError] at hv
  rw [exec_of_firstError_none env runner args hv]
  by_cases h : (strings.Fields (commandLine env args)).length < 2
  · rw [run_invalid env runner args {} h]
    exact ⟨_, _, _, rfl, rfl, rfl⟩
  · rw [run_valid env runner args {} (by omega)]
    refine ⟨_, _, _, rfl, rfl, ?_⟩
    cases args.IsDryRun
    · simp only [Bool.false_eq_true, if_false, afterRun, maskedCommandLine]
      cases (runner (plannedCmd env args)).err <;> rfl
    · rfl

/-- C7 as stated fails: with the password `*`, the command line `Run` logs is
`/flyway/flyway migrate  -url=jdbc:mysql://h/db -user=u -password=****** `, in which
the password occurs. -/
theorem masked_log_counterexample :
    passesValidation envBin argsStarPassword = true ∧ argsStarPassword.Password ≠ [] ∧
      (Exec envBin runnerOk argsStarPassword).map (fun r => firstLogLine r.2.2) =
        some (some ("Executing command: ".toList ++ strings.ReplaceAll
          "/flyway/flyway migrate  -url=jdbc:mysql://h/db -user=u -password=* ".toList
          argsStarPassword.Password "******".toList)) ∧
      strings.ReplaceAll
          "/flyway/flyway migrate  -url=jdbc:mysql://h/db -user=u -password=* ".toList
          argsStarPassword.Password "******".toList =
        "/flyway/flyway migrate  -url=jdbc:mysql://h/db -user=u -password=****** ".toList ∧
      strings.Contains (strings.ReplaceAll
          "/flyway/flyway migrate  -url=jdbc:mysql://h/db -user=u -password=* ".toList
          argsStarPassword.Password "******".toList) argsStarPassword.Password = true := by
  decide

/-- C7, amended: for a configuration that passes validation and whose password is
non-empty and free of the mask character `*`, the first line `Run` logs is
`Executing command: ` followed by the recorded command string with every occurrence of
the password replaced by `******`, and that masked command line does not contain the
password. -/
theorem masked_log_hides_password (env : ProcessEnv) (runner : CmdRunner) (args : Args)
    (hv : passesValidation env args = true) (hne : args.Password ≠ [])
    (hstar : '*' ∉ args.Password) :
    ∃ p err fx, Exec env runner args = some (p, err, fx) ∧
      firstLogLine fx = some ("Executing command: ".toList ++
        strings.ReplaceAll p.ExecCommand args.Password "******".toList) ∧
      strings.Contains (strings.ReplaceAll p.ExecCommand args.Password "******".toList)
        args.Password = false := by
  obtain ⟨p, err, fx, hx, hec, hlog⟩ := exec_first_log_line env runner args hv
  refine ⟨p, err, fx, hx, ?_, ?_⟩
  · rw [hec]; exact hlog
  · exact replaceAll_not_contains _ _ hne hstar

/-- Witness of C7, amended, at the configuration of the specification's example. -/
theorem masked_log_hides_password_witness :
    passesValidation envBin argsMigrate = true ∧ argsMigrate.Password ≠ [] ∧
      '*' ∉ argsMigrate.Password ∧
      ∃ p err fx, Exec envBin runnerOk argsMigrate = some (p, err, fx) ∧
        firstLogLine fx = some ("Executing command: ".toList ++
          strings.ReplaceAll p.ExecCommand argsMigrate.Password "******".toList) ∧
        strings.Contains
          (strings.ReplaceAll p.ExecCommand argsMigrate.Password "******".toList)
          argsMigrate.Password = false :=
  ⟨by decide, by decide, by decide,
    masked_log_hides_password envBin runnerOk argsMigrate (by decide) (by decide)
      (by decide)⟩

theorem exec_valid_eq (env : ProcessEnv) (runner : CmdRunner) (args : Args)
    (hv : passesValidation env args = true)
    (h2 : 2 ≤ (strings.Fields (assembledCommand env args)).length) :
    Exec env runner args =
      some ({ readyPlugin args with
          ExecCommand := commandLine env args, Env := classpathEnv args },
        none,
        if args.IsDryRun then
          logInfo {} ("Executing command: ".toList ++ maskedCommandLine env args)
        else
          afterRun (logInfo {} ("Executing command: ".toList ++ maskedCommandLine env args))
            (plannedCmd env args) (runner (plannedCmd env args))) := by
  rw [passesValidation_iff_firstError] at hv
  rw [assembledCommand_eq] at h2
  rw [exec_of_firstError_none env runner args hv, run_valid env runner args {} h2]

theorem exec_invalid_eq (env : ProcessEnv) (runner : CmdRunner) (args : Args)
    (hv : passesValidation env args = true)
    (h2 : (strings.Fields (assembledCommand env args)).length < 2) :
    Exec env runner args =
      some ({ readyPlugin args with ExecCommand := commandLine env args },
        some (.invalidCommand (commandLine env args)),
        logInfo {} ("Executing command: ".toList ++ maskedCommandLine env args)) := by
  rw [passesValidation_iff_firstError] at hv
  rw [assembledCommand_eq] at h2
  rw [exec_of_firstError_none env runner args hv, run_invalid env runner args {} h2]

theorem afterRun_started (fx : Effects) (cmd : Cmd) (res : CmdResult) :
    (afterRun fx cmd res).started = fx.started ++ [cmd] := by
  unfold afterRun
  cases res.err <;> rfl

/-- C8: whenever `Exec` returns without error, the `Env` field of the returned record
is `CLASSPATH=` followed by the driver path when the driver path is non-empty, and is
empty when the driver path is empty, in dry-run mode as in a real run. -/
theorem exec_env_classpath (env : ProcessEnv) (runner : CmdRunner) (args : Args)
    (hok : (Exec env runner args).map (fun r => r.2.1) = some none) :
    (Exec env runner args).map (fun r => r.1.Env) =
      some (if args.DriverPath = [] then [] else "CLASSPATH=".toList ++ args.DriverPath) := by
  cases hfe : firstError env args with
  | some e =>
    obtain ⟨fx, hx⟩ := exec_of_firstError_some env runner args e hfe
    rw [hx] at hok
    simp at hok
  | none =>
    have hv := (passesValidation_iff_firstError env args).mpr hfe
    by_cases h2 : (strings.Fields (assembledCommand env args)).length < 2
    · rw [exec_invalid_eq env runner args hv h2] at hok
      simp at hok
    · rw [exec_valid_eq env runner args hv (by omega)]
      rfl

/-- Witness of C8: the dry run of `TestUnitTcWithDriverPath`. -/
theorem exec_env_classpath_witness :
    (Exec envBin runnerOk argsClean).map (fun r => r.2.1) = some none ∧
      (Exec envBin runnerOk argsClean).map (fun r => r.1.Env) =
        some "CLASSPATH=/harness/test/flyway-mysql-10.21.0.jar".toList :=
  ⟨by decide, (exec_env_classpath envBin runnerOk argsClean (by decide)).trans (by decide)⟩

/-- C9 as stated fails: when the environment supplies URL, user and password but no
executable path, the bare dry-run `migrate` configuration passes validation, yet the
command string ` migrate  ` has a single field and `Exec` returns the error
`Invalid command`. -/
theorem dry_run_counterexample :
    passesValidation envNoBin argsBareDry = true ∧ argsBareDry.IsDryRun = true ∧
      (Exec envNoBin runnerOk argsBareDry).map (fun r => r.2.1) =
        some (some (.invalidCommand " migrate  ".toList)) := by
  decide

/-- C9, amended: for a configuration that passes validation and has the dry-run flag
set, `Exec` spawns no subprocess and its result is the same whatever a subprocess would
do; it returns success exactly when the assembled command string splits into at least
two whitespace-separated fields, in particular whenever it does, and returns the
`Invalid command` error otherwise. -/
theorem dry_run_no_subprocess (env : ProcessEnv) (runner : CmdRunner) (args : Args)
    (hv : passesValidation env args = true) (hdry : args.IsDryRun = true) :
    (Exec env runner args).map (fun r => r.2.2.started) = some [] ∧
    (∀ runner2 : CmdRunner, Exec env runner2 args = Exec env runner args) ∧
    ((Exec env runner args).map (fun r => r.2.1) = some none ↔
      2 ≤ (strings.Fields (assembledCommand env args)).length) ∧
    (2 ≤ (strings.Fields (assembledCommand env args)).length →
      (Exec env runner args).map (fun r => r.2.1) = some none) ∧
    ((strings.Fields (assembledCommand env args)).length < 2 →
      (Exec env runner args).map (fun r => r.2.1) =
        some (some (.invalidCommand (assembledCommand env args)))) := by
  by_cases h2 : (strings.Fields (assembledCommand env args)).length < 2
  · have hx := fun r => exec_invalid_eq env r args hv h2
    refine ⟨?_, ?_, ?_, ?_, ?_⟩
    · rw [hx]; rfl
    · intro r2; rw [hx, hx]
    · rw [hx]
      simp only [Option.map_some', Option.some.injEq, reduceCtorEq, false_iff]
      omega
    · intro h; omega
    · intro _
      rw [hx, assembledCommand_eq]
      rfl
  · have h2' : 2 ≤ (strings.Fields (assembledCommand env args)).length := by omega
    have hx := fun r => exec_valid_eq env r args hv h2'
    simp only [hdry, if_true] at hx
    refine ⟨?_, ?_, ?_, ?_, ?_⟩
    · rw [hx]; rfl
    · intro r2; rw [hx, hx]
    · rw [hx]
      simp only [Option.map_some', true_iff]
      exact h2'
    · intro _; rw [hx]; rfl
    · intro h; omega

/-- Witness of C9, amended: the dry run of `TestUnitTcWithDriverPath`, with a
subprocess that could not be started. -/
theorem dry_run_no_subprocess_witness :
    passesValidation envBin argsClean = true ∧ argsClean.IsDryRun = true ∧
      2 ≤ (strings.Fields (assembledCommand envBin argsClean)).length ∧
      (Exec envBin runnerFail argsClean).map (fun r => r.2.2.started) = some [] ∧
      (Exec envBin runnerFail argsClean).map (fun r => r.2.1) = some none :=
  have h := dry_run_no_subprocess envBin runnerFail argsClean (by decide) (by decide)
  ⟨by decide, by decide, by decide, h.1, h.2.2.2.1 (by decide)⟩

/-- C10: for a configuration that passes validation, has dry-run unset and whose
assembled command string splits into at least two whitespace-separated fields, `Exec`
runs one subprocess and returns success, with the same `ExecCommand` and `Env`
whatever the subprocess does. -/
theorem subprocess_failure_swallowed (env : ProcessEnv) (runner : CmdRunner) (args : Args)
    (hv : passesValidation env args = true) (hdry : args.IsDryRun = false)
    (h2 : 2 ≤ (strings.Fields (assembledCommand env args)).length) :
    (Exec env runner args).map (fun r => r.2.1) = some none ∧
    (Exec env runner args).map (fun r => r.2.2.started.length) = some 1 ∧
    (∀ runner2 : CmdRunner,
      (Exec env runner2 args).map (fun r => (r.1.ExecCommand, r.1.Env)) =
        (Exec env runner args).map (fun r => (r.1.ExecCommand, r.1.Env))) := by
  have hx := fun r => exec_valid_eq env r args hv h2
  simp only [hdry, Bool.false_eq_true, if_false] at hx
  refine ⟨?_, ?_, ?_⟩
  · rw [hx]; rfl
  · rw [hx]
    simp only [Option.map_some', afterRun_started, Option.some.injEq]
    rfl
  · intro r2; rw [hx, hx]; rfl

/-- Witness of C10: the example of the specification, run for real with a subprocess
that cannot be started. -/
theorem subprocess_failure_swallowed_witness :
    passesValidation envBin argsMigrate = true ∧ argsMigrate.IsDryRun = false ∧
      2 ≤ (strings.Fields (assembledCommand envBin argsMigrate)).length ∧
      (Exec envBin runnerFail argsMigrate).map (fun r => r.2.1) = some none ∧
      (Exec envBin runnerFail argsMigrate).map (fun r => r.2.2.started.length) = some 1 ∧
      (Exec envBin runnerOk argsMigrate).map (fun r => (r.1.ExecCommand, r.1.Env)) =
        (Exec envBin runnerFail argsMigrate).map (fun r => (r.1.ExecCommand, r.1.Env)) :=
  have h := subprocess_failure_swallowed envBin runnerFail argsMigrate (by decide)
    (by decide) (by decide)
  ⟨by decide, by decide, by decide, h.1, h.2.1, h.2.2 runnerOk⟩

/-! ## Lemmas on the whitespace split -/

theorem fieldsScan_word (w : Str) (hw : ∀ c ∈ w, unicode.IsSpace c = false) :
    ∀ (cur s : Str), strings.fieldsScan cur (w ++ s) = strings.fieldsScan (cur ++ w) s := by
  induction w with
  | nil => intro cur s; simp
  | cons c w ih =>
    intro cur s
    have hc : unicode.IsSpace c = false := hw c (List.mem_cons_self _ _)
    rw [List.cons_append, strings.fieldsScan]
    simp only [hc, Bool.false_eq_true, if_false]
    rw [ih (fun x hx => hw x (List.mem_cons_of_mem _ hx))]
    simp

theorem fieldsScan_append_space (b : Str) (sp : Char) (hsp : unicode.IsSpace sp = true) :
    ∀ (a cur : Str), strings.fieldsScan cur (a ++ sp :: b) =
      strings.fieldsScan cur a ++ strings.Fields b := by
  intro a
  induction a with
  | nil =>
    intro cur
    simp only [List.nil_append, strings.fieldsScan, hsp, if_true, strings.Fields]
    cases cur <;> rfl
  | cons c a ih =>
    intro cur
    rw [List.cons_append, strings.fieldsScan, strings.fieldsScan]
    cases hc : unicode.IsSpace c
    · simp only [Bool.false_eq_true, if_false]
      exact ih _
    · simp only [if_true]
      cases hcur : cur.isEmpty
      · simp only [Bool.false_eq_true, if_false, ih, List.cons_append]
      · simp only [if_true, ih]

theorem fields_append_space (a b : Str) (sp : Char) (hsp : unicode.IsSpace sp = true) :
    strings.Fields (a ++ sp :: b) = strings.Fields a ++ strings.Fields b :=
  fieldsScan_append_space b sp hsp a []

theorem fields_word (w : Str) (hne : w ≠ []) (hw : ∀ c ∈ w, unicode.IsSpace c = false) :
    strings.Fields w = [w] := by
  have h := fieldsScan_word w hw [] []
  rw [List.append_nil, List.nil_append] at h
  rw [strings.Fields, h, strings.fieldsScan]
  cases w with
  | nil => exact absurd rfl hne
  | cons c w => rfl

theorem fieldsScan_ne_nil :
    ∀ (s cur : Str), (cur ≠ [] ∨ ∃ c ∈ s, unicode.IsSpace c = false) →
      strings.fieldsScan cur s ≠ [] := by
  intro s
  induction s with
  | nil =>
    intro cur h
    rcases h with h | ⟨c, hc, -⟩
    · cases cur with
      | nil => exact absurd rfl h
      | cons x cur => simp [strings.fieldsScan]
    · cases hc
  | cons c s ih =>
    intro cur h
    rw [strings.fieldsScan]
    cases hc : unicode.IsSpace c
    · simp only [Bool.false_eq_true, if_false]
      exact ih _ (Or.inl (by simp))
    · simp only [if_true]
      cases hcur : cur.isEmpty
      · simp
      · simp only [if_true]
        apply ih
        right
        rcases h with h | ⟨x, hx, hxs⟩
        · cases cur with
          | nil => exact absurd rfl h
          | cons y cur => simp at hcur
        · rcases List.mem_cons.mp hx with rfl | hx
          · rw [hc] at hxs; exact absurd hxs (by decide)
          · exact ⟨x, hx, hxs⟩

theorem fields_ne_nil (s : Str) (h : ∃ c ∈ s, unicode.IsSpace c = false) :
    strings.Fields s ≠ [] :=
  fieldsScan_ne_nil s [] (Or.inr h)

theorem fieldsScan_no_space :
    ∀ (s cur : Str), (∀ c ∈ cur, unicode.IsSpace c = false) →
      ∀ f ∈ strings.fieldsScan cur s, ∀ c ∈ f, unicode.IsSpace c = false := by
  intro s
  induction s with
  | nil =>
    intro cur hcur f hf
    rw [strings.fieldsScan] at hf
    cases hc : cur.isEmpty
    · simp only [hc, Bool.false_eq_true, if_false, List.mem_singleton] at hf
      rw [hf]; exact hcur
    · simp [hc] at hf
  | cons x s ih =>
    intro cur hcur f hf
    rw [strings.fieldsScan] at hf
    cases hx : unicode.IsSpace x
    · simp only [hx, Bool.false_eq_true, if_false] at hf
      refine ih _ ?_ f hf
      intro c hc
      rcases List.mem_append.mp hc with h | h
      · exact hcur c h
      · rw [List.mem_singleton.mp h]; exact hx
    · simp only [hx, if_true] at hf
      cases hc : cur.isEmpty
      · simp only [hc, Bool.false_eq_true, if_false, List.mem_cons] at hf
        rcases hf with rfl | hf
        · exact hcur
        · exact ih [] (by simp) f hf
      · simp only [hc, if_true] at hf
        exact ih [] (by simp) f hf

theorem fields_no_space (s : Str) :
    ∀ f ∈ strings.Fields s, ∀ c ∈ f, unicode.IsSpace c = false :=
  fieldsScan_no_space s [] (by simp)

theorem mem_of_hasPrefix (sub : Str) :
    ∀ (s : Str), strings.HasPrefix s sub = true → ∀ c ∈ sub, c ∈ s := by
  induction sub with
  | nil => intro s _ c hc; cases hc
  | cons d sub ih =>
    intro s h c hc
    cases s with
    | nil => simp [strings.HasPrefix] at h
    | cons x s =>
      simp only [strings.HasPrefix, Bool.and_eq_true, beq_iff_eq] at h
      rcases List.mem_cons.mp hc with rfl | hc
      · rw [h.1]; exact List.mem_cons_self _ _
      · exact List.mem_cons_of_mem _ (ih s h.2 c hc)

theorem mem_of_contains (sub : Str) :
    ∀ (s : Str), strings.Contains s sub = true → ∀ c ∈ sub, c ∈ s := by
  intro s
  induction s with
  | nil =>
    intro h c hc
    cases sub with
    | nil => cases hc
    | cons d sub => simp [strings.Contains, strings.Index] at h
  | cons x s ih =>
    intro h c hc
    simp only [strings.Contains, strings.Index] at h ih
    cases hp : strings.HasPrefix (x :: s) sub
    · simp only [hp, Bool.false_eq_true, if_false, Option.isSome_map'] at h
      exact List.mem_cons_of_mem _ (ih h c hc)
    · exact mem_of_hasPrefix sub _ hp c hc

theorem isSpace_space : unicode.IsSpace ' ' = true := by decide

theorem commandLine_eq (env : ProcessEnv) (args : Args) :
    commandLine env args =
      GetFlywayExecutablePath env ++ ' ' :: (args.FlywayCommand ++ ' ' ::
        (cleanFlag args ++ ' ' :: (connectionFlags args ++ args.CommandLineArgs))) := by
  simp only [commandLine, List.append_assoc]
  rfl

theorem fields_supported {c : Str} (h : c ∈ supportedCommands) : strings.Fields c = [c] := by
  simp only [supportedCommands, List.mem_cons, List.mem_singleton, List.not_mem_nil,
    or_false] at h
  rcases h with rfl | rfl | rfl | rfl | rfl <;> decide

theorem fields_commandLine (env : ProcessEnv) (args : Args)
    (hcmd : args.FlywayCommand ∈ supportedCommands) :
    strings.Fields (commandLine env args) =
      strings.Fields (GetFlywayExecutablePath env) ++ ([args.FlywayCommand] ++
        (strings.Fields (cleanFlag args) ++
          strings.Fields (connectionFlags args ++ args.CommandLineArgs))) := by
  rw [commandLine_eq, fields_append_space _ _ _ isSpace_space,
    fields_append_space _ _ _ isSpace_space, fields_append_space _ _ _ isSpace_space,
    fields_supported hcmd]

theorem dash_mem_connectionFlags (args : Args) (h : args.Url ≠ []) :
    '-' ∈ connectionFlags args := by
  simp only [connectionFlags, optFlag, h, if_false]
  simp

theorem two_fields_of_valid (env : ProcessEnv) (args : Args)
    (hu : os.Getenv env "FLYWAY_URL".toList = [])
    (hv : passesValidation env args = true) :
    2 ≤ (strings.Fields (assembledCommand env args)).length := by
  obtain ⟨hcmd, hrest⟩ := (passesValidation_iff env args).mp hv
  have hdash : '-' ∈ connectionFlags args ++ args.CommandLineArgs := by
    rcases hrest with hc | ⟨hsu, -, -⟩
    · exact List.mem_append_right _
        (mem_of_contains ConfigFileOpt _ hc '-' (by decide))
    · have hurl : args.Url ≠ [] := by
        rcases hsu with h | h
        · exact absurd hu h
        · exact h
      exact List.mem_append_left _ (dash_mem_connectionFlags args hurl)
  have hne : strings.Fields (connectionFlags args ++ args.CommandLineArgs) ≠ [] :=
    fields_ne_nil _ ⟨'-', hdash, by decide⟩
  rw [assembledCommand_eq, fields_commandLine env args hcmd]
  have hpos : 0 < (strings.Fields (connectionFlags args ++ args.CommandLineArgs)).length :=
    List.length_pos.mpr hne
  simp only [List.length_append, List.length_cons, List.length_nil]
  omega

/-- C11: in an environment where `FLYWAY_URL`, `FLYWAY_USER` and `FLYWAY_PASSWORD` are
unset or empty (`FLYWAY_BIN_PATH` arbitrary), the command string assembled for a
configuration that passes validation splits into at least two fields; `Exec` never
returns the `Invalid command` error of `Run`, and it returns an error if and only if
validation fails. -/
theorem invalid_command_unreachable (env : ProcessEnv) (runner : CmdRunner) (args : Args)
    (hu : os.Getenv env "FLYWAY_URL".toList = [])
    (_hn : os.Getenv env "FLYWAY_USER".toList = [])
    (_hp : os.Getenv env "FLYWAY_PASSWORD".toList = []) :
    (passesValidation env args = true →
      2 ≤ (strings.Fields (assembledCommand env args)).length) ∧
    (∀ s : Str, (Exec env runner args).map (fun r => r.2.1) ≠
      some (some (.invalidCommand s))) ∧
    ((∃ e, (Exec env runner args).map (fun r => r.2.1) = some (some e)) ↔
      passesValidation env args = false) := by
  refine ⟨two_fields_of_valid env args hu, ?_, ?_⟩
  · intro s
    cases hfe : firstError env args with
    | some e =>
      obtain ⟨fx, hx⟩ := exec_of_firstError_some env runner args e hfe
      rw [hx]
      simp only [Option.map_some', ne_eq, Option.some.injEq]
      rintro rfl
      revert hfe
      simp only [firstError]
      split_ifs <;> simp
    | none =>
      have hv := (passesValidation_iff_firstError env args).mpr hfe
      rw [exec_valid_eq env runner args hv (two_fields_of_valid env args hu hv)]
      simp
  · cases hfe : firstError env args with
    | some e =>
      obtain ⟨fx, hx⟩ := exec_of_firstError_some env runner args e hfe
      have hnv : passesValidation env args = false := by
        rw [← Bool.not_eq_true, passesValidation_iff_firstError, hfe]
        simp
      rw [hx]
      simp [hnv]
    | none =>
      have hv := (passesValidation_iff_firstError env args).mpr hfe
      rw [exec_valid_eq env runner args hv (two_fields_of_valid env args hu hv)]
      simp [hv]

/-- Witness of C11: the specification's example in an environment that only names the
executable. -/
theorem invalid_command_unreachable_witness :
    os.Getenv envBin "FLYWAY_URL".toList = [] ∧ os.Getenv envBin "FLYWAY_USER".toList = [] ∧
    os.Getenv envBin "FLYWAY_PASSWORD".toList = [] ∧
    passesValidation envBin argsMigrate = true ∧
    2 ≤ (strings.Fields (assembledCommand envBin argsMigrate)).length ∧
    (∀ s : Str, (Exec envBin runnerOk argsMigrate).map (fun r => r.2.1) ≠
      some (some (.invalidCommand s))) :=
  have h := invalid_command_unreachable envBin runnerOk argsMigrate (by decide) (by decide)
    (by decide)
  ⟨by decide, by decide, by decide, by decide, h.1 (by decide), h.2.1⟩

theorem fields_optFlag (name value rest : Str) (hname : name ≠ [])
    (hn : ∀ c ∈ name, unicode.IsSpace c = false)
    (hvalue : ∀ c ∈ value, unicode.IsSpace c = false) :
    strings.Fields (optFlag name value ++ rest) = optArg name value ++ strings.Fields rest := by
  by_cases h : value = []
  · simp [optFlag, optArg, h]
  · have hw : ∀ c ∈ name ++ value, unicode.IsSpace c = false := by
      intro c hc
      rcases List.mem_append.mp hc with h1 | h1
      · exact hn c h1
      · exact hvalue c h1
    have hne : name ++ value ≠ [] := by simp [hname]
    simp only [optFlag, optArg, h, if_false]
    have e : name ++ value ++ " ".toList ++ rest = (name ++ value) ++ ' ' :: rest := by
      simp only [List.append_assoc]; rfl
    rw [e, fields_append_space _ _ _ isSpace_space, fields_word _ hne hw]

theorem fields_cleanFlag (args : Args) :
    strings.Fields (cleanFlag args) =
      if args.FlywayCommand = "clean".toList ∧
          strings.Contains args.CommandLineArgs "-cleanDisabled".toList = false
        then ["-cleanDisabled=false".toList] else [] := by
  unfold cleanFlag
  by_cases h : args.FlywayCommand = CleanCommand ∧
      strings.Contains args.CommandLineArgs "-cleanDisabled".toList = false
  · have h2 : args.FlywayCommand = "clean".toList ∧
        strings.Contains args.CommandLineArgs "-cleanDisabled".toList = false := h
    rw [if_pos h, if_pos h2]; decide
  · have h2 : ¬ (args.FlywayCommand = "clean".toList ∧
        strings.Contains args.CommandLineArgs "-cleanDisabled".toList = false) := h
    rw [if_neg h, if_neg h2]; decide

theorem fields_connectionFlags (args : Args)
    (hurl : ∀ c ∈ args.Url, unicode.IsSpace c = false)
    (huser : ∀ c ∈ args.UserName, unicode.IsSpace c = false)
    (hpw : ∀ c ∈ args.Password, unicode.IsSpace c = false)
    (hloc : ∀ c ∈ args.Locations, unicode.IsSpace c = false) :
    strings.Fields (connectionFlags args ++ args.CommandLineArgs) =
      optArg "-url=".toList args.Url ++ optArg "-user=".toList args.UserName ++
      optArg "-password=".toList args.Password ++
      optArg "-locations=".toList args.Locations ++ strings.Fields args.CommandLineArgs := by
  simp only [connectionFlags, List.append_assoc]
  rw [fields_optFlag _ _ _ (by decide) (by decide) hurl,
    fields_optFlag _ _ _ (by decide) (by decide) huser,
    fields_optFlag _ _ _ (by decide) (by decide) hpw,
    fields_optFlag _ _ _ (by decide) (by decide) hloc]

/-- C12: when `FLYWAY_BIN_PATH` is non-empty and free of whitespace and the
configuration passes validation with URL, user name, password and locations free of
whitespace, the whitespace split of the assembled command string is the executable
path followed by the command, `-cleanDisabled=false` when it is inserted, the `-url=`,
`-user=`, `-password=`, `-locations=` arguments of the non-empty fields and the fields
of the extra arguments, in this order; a real run starts exactly that program with
exactly these arguments. -/
theorem split_program_and_arguments (env : ProcessEnv) (runner : CmdRunner) (args : Args)
    (hexe : os.Getenv env "FLYWAY_BIN_PATH".toList ≠ [])
    (hexeSp : ∀ c ∈ os.Getenv env "FLYWAY_BIN_PATH".toList, unicode.IsSpace c = false)
    (hv : passesValidation env args = true)
    (hurl : ∀ c ∈ args.Url, unicode.IsSpace c = false)
    (huser : ∀ c ∈ args.UserName, unicode.IsSpace c = false)
    (hpw : ∀ c ∈ args.Password, unicode.IsSpace c = false)
    (hloc : ∀ c ∈ args.Locations, unicode.IsSpace c = false) :
    strings.Fields (assembledCommand env args) =
      os.Getenv env "FLYWAY_BIN_PATH".toList ::
        ([args.FlywayCommand] ++
        (if args.FlywayCommand = "clean".toList ∧
            strings.Contains args.CommandLineArgs "-cleanDisabled".toList = false
          then ["-cleanDisabled=false".toList] else []) ++
        optArg "-url=".toList args.Url ++ optArg "-user=".toList args.UserName ++
        optArg "-password=".toList args.Password ++
        optArg "-locations=".toList args.Locations ++
        strings.Fields args.CommandLineArgs) ∧
    (args.IsDryRun = false →
      (Exec env runner args).map (fun r => r.2.2.started.map (fun c => (c.Name, c.Args))) =
        some [(os.Getenv env "FLYWAY_BIN_PATH".toList, expectedArguments args)]) := by
  obtain ⟨hcmd, -⟩ := (passesValidation_iff env args).mp hv
  have hsplit : strings.Fields (assembledCommand env args) =
      os.Getenv env "FLYWAY_BIN_PATH".toList :: expectedArguments args := by
    rw [assembledCommand_eq, fields_commandLine env args hcmd, fields_cleanFlag,
      fields_connectionFlags args hurl huser hpw hloc]
    have hw : strings.Fields (GetFlywayExecutablePath env) =
        [os.Getenv env "FLYWAY_BIN_PATH".toList] := fields_word _ hexe hexeSp
    rw [hw]
    simp only [expectedArguments, List.append_assoc, List.singleton_append, List.cons_append,
      List.nil_append]
  refine ⟨hsplit, ?_⟩
  intro hdry
  have h2 : 2 ≤ (strings.Fields (assembledCommand env args)).length := by
    rw [hsplit]
    simp [expectedArguments]
  rw [exec_valid_eq env runner args hv h2]
  rw [assembledCommand_eq] at hsplit
  simp only [hdry, Bool.false_eq_true, if_false, Option.map_some', afterRun_started,
    Option.some.injEq]
  simp only [logInfo, plannedCmd, hsplit, List.nil_append, List.map_cons, List.map_nil,
    List.headD_cons, List.tail_cons]

/-- Witness of C12: the configuration of `TestUnitTcWithExtraArgsVerbose`, run for
real with the executable at `/flyway/flyway`. -/
theorem split_program_and_arguments_witness :
    os.Getenv envBin "FLYWAY_BIN_PATH".toList ≠ [] ∧
    passesValidation envBin argsVerbose = true ∧
    strings.Fields (assembledCommand envBin argsVerbose) =
      ["/flyway/flyway".toList, "migrate".toList, "-url=jdbc:mysql://h/db".toList,
        "-user=u".toList, "-password=p".toList, "-locations=filesystem:/x".toList,
        "-X".toList] ∧
    (Exec envBin runnerOk argsVerbose).map
        (fun r => r.2.2.started.map (fun c => (c.Name, c.Args))) =
      some [("/flyway/flyway".toList,
        ["migrate".toList, "-url=jdbc:mysql://h/db".toList, "-user=u".toList,
          "-password=p".toList, "-locations=filesystem:/x".toList, "-X".toList])] :=
  have h := split_program_and_arguments envBin runnerOk argsVerbose (by decide) (by decide)
    (by decide) (by decide) (by decide) (by decide) (by decide)
  ⟨by decide, by decide, h.1.trans (by decide), (h.2 (by decide)).trans (by decide)⟩

/-! ## Lemmas on consecutive spaces -/

theorem doubleSpaces_word (w : Str) (hw : ' ' ∉ w) :
    ∀ r : Str, doubleSpaces (w ++ r) = doubleSpaces r := by
  induction w with
  | nil => intro r; rfl
  | cons c w ih =>
    intro r
    have hc : c ≠ ' ' := fun h => hw (h ▸ List.mem_cons_self _ _)
    have hw2 : ' ' ∉ w := fun h => hw (List.mem_cons_of_mem _ h)
    rw [← ih hw2 r, List.cons_append]
    cases hwr : w ++ r with
    | nil => rfl
    | cons d t => simp [doubleSpaces, hc]

theorem doubleSpaces_space_word (w r : Str) (hne : w ≠ []) (hw : ' ' ∉ w) :
    doubleSpaces (' ' :: (w ++ r)) = doubleSpaces r := by
  cases w with
  | nil => exact absurd rfl hne
  | cons c w =>
    have hc : c ≠ ' ' := fun h => hw (h ▸ List.mem_cons_self _ _)
    rw [← doubleSpaces_word (c :: w) hw r, List.cons_append]
    simp [doubleSpaces, hc]

theorem doubleSpaces_space_optFlag (name value r : Str) (hname : name ≠ [])
    (hn : ' ' ∉ name) (hvalue : ' ' ∉ value) :
    doubleSpaces (' ' :: (optFlag name value ++ r)) = doubleSpaces (' ' :: r) := by
  by_cases h : value = []
  · simp [optFlag, h]
  · have hw : ' ' ∉ name ++ value := by
      intro hc
      rcases List.mem_append.mp hc with h1 | h1
      · exact hn h1
      · exact hvalue h1
    have hne : name ++ value ≠ [] := by simp [hname]
    have e : optFlag name value ++ r = (name ++ value) ++ ' ' :: r := by
      simp only [optFlag, h, if_false, List.append_assoc]; rfl
    rw [e, doubleSpaces_space_word _ _ hne hw]

theorem doubleSpaces_space_end (w : Str) (hw : ' ' ∉ w) : doubleSpaces (' ' :: w) = 0 := by
  cases w with
  | nil => rfl
  | cons c w =>
    have h := doubleSpaces_space_word (c :: w) [] (by simp) hw
    rw [List.append_nil] at h
    rw [h]; rfl

theorem doubleSpaces_eq_zero_iff :
    ∀ s : Str, doubleSpaces s = 0 ↔ strings.Contains s "  ".toList = false := by
  intro s
  induction s with
  | nil => decide
  | cons c s ih =>
    cases s with
    | nil =>
      rw [contains_cons]
      simp [doubleSpaces, strings.HasPrefix, contains_nil]
    | cons d t =>
      rw [contains_cons]
      by_cases h : c = ' ' ∧ d = ' '
      · simp [doubleSpaces, strings.HasPrefix, h.1, h.2]
      · have hp : strings.HasPrefix (c :: d :: t) "  ".toList = false := by
          simp only [String.toList, strings.HasPrefix, Bool.and_true, Bool.and_eq_false_imp,
            beq_iff_eq, beq_eq_false_iff_ne, ne_eq]
          intro hc hd
          exact h ⟨hc, hd⟩
        rw [hp, Bool.false_or, ← ih]
        simp [doubleSpaces, h]

theorem doubleSpaces_commandLine (env : ProcessEnv) (args : Args)
    (hcmd : args.FlywayCommand ∈ supportedCommands)
    (hexe : ' ' ∉ os.Getenv env "FLYWAY_BIN_PATH".toList)
    (hurl : ' ' ∉ args.Url) (huser : ' ' ∉ args.UserName) (hpw : ' ' ∉ args.Password)
    (hloc : ' ' ∉ args.Locations) (hextra : ' ' ∉ args.CommandLineArgs) :
    doubleSpaces (commandLine env args) = 1 := by
  have hcne : args.FlywayCommand ≠ [] := supported_ne_nil hcmd
  have hcsp : ' ' ∉ args.FlywayCommand := by
    simp only [supportedCommands, List.mem_cons, List.mem_singleton, List.not_mem_nil,
      or_false] at hcmd
    rcases hcmd with h | h | h | h | h <;> rw [h] <;> decide
  have hrest : doubleSpaces (' ' :: (connectionFlags args ++ args.CommandLineArgs)) = 0 := by
    simp only [connectionFlags, List.append_assoc]
    rw [doubleSpaces_space_optFlag _ _ _ (by decide) (by decide) hurl,
      doubleSpaces_space_optFlag _ _ _ (by decide) (by decide) huser,
      doubleSpaces_space_optFlag _ _ _ (by decide) (by decide) hpw,
      doubleSpaces_space_optFlag _ _ _ (by decide) (by decide) hloc]
    exact doubleSpaces_space_end _ hextra
  have htwo : ∀ r : Str, doubleSpaces (' ' :: ' ' :: r) = 1 + doubleSpaces (' ' :: r) := by
    intro r; simp [doubleSpaces]
  have hexe2 : ' ' ∉ GetFlywayExecutablePath env := hexe
  rw [commandLine_eq, doubleSpaces_word _ hexe2, doubleSpaces_space_word _ _ hcne hcsp]
  unfold cleanFlag
  split_ifs
  · have e : "-cleanDisabled=false ".toList ++
          ' ' :: (connectionFlags args ++ args.CommandLineArgs) =
        "-cleanDisabled=false".toList ++
          ' ' :: ' ' :: (connectionFlags args ++ args.CommandLineArgs) := rfl
    rw [e, doubleSpaces_space_word _ _ (by decide) (by decide), htwo, hrest]
  · rw [List.nil_append, htwo, hrest]

/-- C13 as stated fails: for the configuration of `TestUnitTcWithExtraArgsVerbose`
with the executable at `/flyway/flyway`, where the executable path and every field
value are non-empty and free of spaces, the recorded command string
`/flyway/flyway migrate  -url=...` contains two consecutive spaces. -/
theorem single_space_counterexample :
    passesValidation envBin argsVerbose = true ∧
    (os.Getenv envBin "FLYWAY_BIN_PATH".toList ≠ [] ∧
      ' ' ∉ os.Getenv envBin "FLYWAY_BIN_PATH".toList) ∧
    (argsVerbose.FlywayCommand ≠ [] ∧ ' ' ∉ argsVerbose.FlywayCommand) ∧
    (argsVerbose.Url ≠ [] ∧ ' ' ∉ argsVerbose.Url) ∧
    (argsVerbose.UserName ≠ [] ∧ ' ' ∉ argsVerbose.UserName) ∧
    (argsVerbose.Password ≠ [] ∧ ' ' ∉ argsVerbose.Password) ∧
    (argsVerbose.Locations ≠ [] ∧ ' ' ∉ argsVerbose.Locations) ∧
    (argsVerbose.CommandLineArgs ≠ [] ∧ ' ' ∉ argsVerbose.CommandLineArgs) ∧
    (Exec envBin runnerOk argsVerbose).map (fun r => r.1.ExecCommand) =
      some ("/flyway/flyway migrate  -url=jdbc:mysql://h/db -user=u -password=p " ++
        "-locations=filesystem:/x -X").toList ∧
    (Exec envBin runnerOk argsVerbose).map
      (fun r => strings.Contains r.1.ExecCommand "  ".toList) = some true := by
  decide

/-- C13, amended: for a configuration that passes validation, when the executable
path and the URL, user name, password, locations and extra arguments contain no space
character, the recorded command string contains exactly one pair of consecutive
spaces. It is the pair made by the space the builder writes after the
command-specific segment (empty, or `-cleanDisabled=false `) and the space before it;
everywhere else the values are separated by single spaces. -/
theorem one_double_space (env : ProcessEnv) (runner : CmdRunner) (args : Args)
    (hv : passesValidation env args = true)
    (hexe : ' ' ∉ os.Getenv env "FLYWAY_BIN_PATH".toList)
    (hurl : ' ' ∉ args.Url) (huser : ' ' ∉ args.UserName) (hpw : ' ' ∉ args.Password)
    (hloc : ' ' ∉ args.Locations) (hextra : ' ' ∉ args.CommandLineArgs) :
    (Exec env runner args).map (fun r => doubleSpaces r.1.ExecCommand) = some 1 ∧
    (Exec env runner args).map (fun r => strings.Contains r.1.ExecCommand "  ".toList) =
      some true ∧
    (Exec env runner args).map (fun r => r.1.ExecCommand) =
      some (os.Getenv env "FLYWAY_BIN_PATH".toList ++ " ".toList ++ args.FlywayCommand ++
        " ".toList ++
        (if args.FlywayCommand = "clean".toList ∧
            strings.Contains args.CommandLineArgs "-cleanDisabled".toList = false
          then "-cleanDisabled=false ".toList else []) ++
        " ".toList ++ optFlag "-url=".toList args.Url ++
        optFlag "-user=".toList args.UserName ++ optFlag "-password=".toList args.Password ++
        optFlag "-locations=".toList args.Locations ++ args.CommandLineArgs) := by
  obtain ⟨hcmd, -⟩ := (passesValidation_iff env args).mp hv
  have hone := doubleSpaces_commandLine env args hcmd hexe hurl huser hpw hloc hextra
  have hx := exec_execCommand env runner args hv
  cases hE : Exec env runner args with
  | none => rw [hE] at hx; simp at hx
  | some r =>
    rw [hE] at hx
    simp only [Option.map_some', Option.some.injEq] at hx ⊢
    refine ⟨?_, ?_, ?_⟩
    · rw [hx, hone]
    · cases hc : strings.Contains r.1.ExecCommand "  ".toList with
      | true => rfl
      | false =>
        rw [hx] at hc
        rw [(doubleSpaces_eq_zero_iff _).mpr hc] at hone
        exact absurd hone (by decide)
    · rw [hx]
      simp only [commandLine, cleanFlag, connectionFlags, GetFlywayExecutablePath,
        CleanCommand, List.append_assoc]

/-- Witness of C13, amended: the configuration of `TestUnitTcWithExtraArgsVerbose`. -/
theorem one_double_space_witness :
    passesValidation envBin argsVerbose = true ∧
    ' ' ∉ os.Getenv envBin "FLYWAY_BIN_PATH".toList ∧
    (Exec envBin runnerOk argsVerbose).map (fun r => doubleSpaces r.1.ExecCommand) = some 1 :=
  ⟨by decide, by decide,
    (one_double_space envBin runnerOk argsVerbose (by decide) (by decide) (by decide)
      (by decide) (by decide) (by decide) (by decide)).1⟩

/-! ## Lemmas on the split of the password flag -/

theorem fields_cons_space (sp : Char) (r : Str) (hsp : unicode.IsSpace sp = true) :
    strings.Fields (sp :: r) = strings.Fields r :=
  fields_append_space [] r sp hsp

theorem fields_optFlag_append (name value r : Str) :
    strings.Fields (optFlag name value ++ r) =
      strings.Fields (optFlag name value) ++ strings.Fields r := by
  by_cases h : value = []
  · simp only [optFlag, h, if_true, List.nil_append]
    rfl
  · have e : ∀ t : Str, optFlag name value ++ t = (name ++ value) ++ ' ' :: t := by
      intro t
      simp only [optFlag, h, if_false, List.append_assoc]
      rfl
    have e0 := e []
    rw [List.append_nil] at e0
    rw [e r, e0, fields_append_space _ _ _ isSpace_space,
      fields_append_space _ _ _ isSpace_space]
    simp [strings.Fields, strings.fieldsScan]

theorem fromSpace_cons :
    ∀ s : Str, (∃ c ∈ s, unicode.IsSpace c = true) →
      ∃ sp rest, unicode.IsSpace sp = true ∧ fromSpace s = sp :: rest := by
  intro s
  induction s with
  | nil => rintro ⟨c, hc, -⟩; cases hc
  | cons x s ih =>
    rintro ⟨c, hc, hcs⟩
    cases hx : unicode.IsSpace x
    · have hs : ∃ c ∈ s, unicode.IsSpace c = true := by
        rcases List.mem_cons.mp hc with rfl | hc
        · rw [hx] at hcs; exact absurd hcs (by decide)
        · exact ⟨c, hc, hcs⟩
      obtain ⟨sp, rest, h1, h2⟩ := ih hs
      refine ⟨sp, rest, h1, ?_⟩
      simp only [fromSpace, List.dropWhile, hx, Bool.not_false] at h2 ⊢
      exact h2
    · exact ⟨x, s, hx, by simp [fromSpace, List.dropWhile, hx]⟩

theorem beforeSpace_append_fromSpace (s : Str) : beforeSpace s ++ fromSpace s = s :=
  List.takeWhile_append_dropWhile _ s

theorem beforeSpace_no_space (s : Str) : ∀ c ∈ beforeSpace s, unicode.IsSpace c = false := by
  intro c hc
  have h := List.mem_takeWhile_imp hc
  simpa using h

theorem fields_password_flag (password : Str)
    (hsp : ∃ c ∈ password, unicode.IsSpace c = true) :
    strings.Fields (optFlag "-password=".toList password) = passwordArguments password := by
  obtain ⟨sp, rest, hs, hfrom⟩ := fromSpace_cons password hsp
  have hne : password ≠ [] := by
    rintro rfl
    obtain ⟨c, hc, -⟩ := hsp
    cases hc
  have hw : ∀ c ∈ "-password=".toList ++ beforeSpace password, unicode.IsSpace c = false := by
    intro c hc
    have hn : ∀ x ∈ "-password=".toList, unicode.IsSpace x = false := by decide
    rcases List.mem_append.mp hc with h | h
    · exact hn c h
    · exact beforeSpace_no_space password c h
  have hword : "-password=".toList ++ beforeSpace password ≠ [] := by
    intro h
    have := congrArg List.length h
    simp at this
  have e : optFlag "-password=".toList password =
      ("-password=".toList ++ beforeSpace password) ++ sp :: (rest ++ ' ' :: []) := by
    have hp : password = beforeSpace password ++ sp :: rest := by
      rw [← hfrom, beforeSpace_append_fromSpace]
    simp only [optFlag, hne, if_false]
    conv_lhs => rw [hp]
    simp only [List.append_assoc, List.cons_append]
    rfl
  rw [e, fields_append_space _ _ _ hs, fields_append_space _ _ _ isSpace_space,
    fields_word _ hword hw, passwordArguments, hfrom, fields_cons_space _ _ hs]
  simp [strings.Fields, strings.fieldsScan]

theorem fields_eq_nil_of_all_space :
    ∀ s : Str, (∀ c ∈ s, unicode.IsSpace c = true) → strings.Fields s = [] := by
  intro s
  induction s with
  | nil => intro _; rfl
  | cons x s ih =>
    intro h
    rw [fields_cons_space x s (h x (List.mem_cons_self _ _))]
    exact ih (fun c hc => h c (List.mem_cons_of_mem _ hc))

theorem fields_ne_nil_iff (s : Str) :
    strings.Fields s ≠ [] ↔ ∃ c ∈ s, unicode.IsSpace c = false := by
  constructor
  · intro h
    by_contra hno
    apply h
    apply fields_eq_nil_of_all_space
    intro c hc
    cases hcs : unicode.IsSpace c with
    | true => rfl
    | false => exact absurd ⟨c, hc, hcs⟩ hno
  · exact fields_ne_nil s

theorem commandLine_eq_around_password (env : ProcessEnv) (args : Args) :
    commandLine env args =
      beforePassword env args ++ (optFlag "-password=".toList args.Password ++
        afterPassword args) := by
  simp only [commandLine, beforePassword, afterPassword, connectionFlags, cleanFlag,
    GetFlywayExecutablePath, CleanCommand, List.append_assoc]

theorem fields_beforePassword_append (env : ProcessEnv) (args : Args) (r : Str) :
    strings.Fields (beforePassword env args ++ r) =
      strings.Fields (beforePassword env args) ++ strings.Fields r := by
  have e : ∀ t : Str, beforePassword env args ++ t =
      (os.Getenv env "FLYWAY_BIN_PATH".toList ++ " ".toList ++ args.FlywayCommand ++
        " ".toList ++
        (if args.FlywayCommand = "clean".toList ∧
            strings.Contains args.CommandLineArgs "-cleanDisabled".toList = false
          then "-cleanDisabled=false ".toList else [])) ++
      ' ' :: (optFlag "-url=".toList args.Url ++
        (optFlag "-user=".toList args.UserName ++ t)) := by
    intro t
    simp only [beforePassword, List.append_assoc]
    rfl
  have e0 := e []
  rw [List.append_nil, List.append_nil] at e0
  rw [e r, e0, fields_append_space _ _ _ isSpace_space,
    fields_append_space _ _ _ isSpace_space, fields_optFlag_append, fields_optFlag_append,
    fields_optFlag_append "-url=".toList]
  simp only [List.append_assoc]

theorem cons_headD_tail (l : List Str) (h : l ≠ []) : l.headD [] :: l.tail = l := by
  cases l with
  | nil => exact absurd rfl h
  | cons a l => rfl

/-- C14 as stated fails: the password `x ` contains a whitespace character, yet it is
not spread over several arguments: the subprocess is started with the single argument
`-password=x` for it. -/
theorem password_single_argument_counterexample :
    passesValidation envBin argsTrailingSpace = true ∧
    unicode.IsSpace ' ' = true ∧ ' ' ∈ argsTrailingSpace.Password ∧
    (Exec envBin runnerOk argsTrailingSpace).map
        (fun r => r.2.2.started.map (fun c => (c.Name, c.Args))) =
      some [("/flyway/flyway".toList,
        ["migrate".toList, "-url=jdbc:mysql://h/db".toList, "-user=u".toList,
          "-password=x".toList])] ∧
    passwordArguments argsTrailingSpace.Password = ["-password=x".toList] := by
  decide

/-- C14, amended: for a configuration that passes validation and whose password
contains a whitespace character, the recorded command string is what precedes the
password flag, the flag `-password=` ++ password ++ space, and what follows it; its
whitespace split is the fields of what precedes, then `-password=` with the part of the
password before its first whitespace character, then the fields of the rest of the
password, then the fields of what follows. No argument equals `-password=` followed by
the password, a real run starts the subprocess with exactly this split, and the
password is spread over several arguments exactly when a non-whitespace character
follows its first whitespace character (otherwise it is cut down to one argument). -/
theorem password_split_at_whitespace (env : ProcessEnv) (runner : CmdRunner) (args : Args)
    (hv : passesValidation env args = true)
    (hsp : ∃ c ∈ args.Password, unicode.IsSpace c = true) :
    ∃ p err fx, Exec env runner args = some (p, err, fx) ∧
      p.ExecCommand = beforePassword env args ++
        ("-password=".toList ++ args.Password ++ " ".toList) ++ afterPassword args ∧
      strings.Fields p.ExecCommand =
        strings.Fields (beforePassword env args) ++ passwordArguments args.Password ++
          strings.Fields (afterPassword args) ∧
      "-password=".toList ++ args.Password ∉ (strings.Fields p.ExecCommand).tail ∧
      (∀ cmd ∈ fx.started, "-password=".toList ++ args.Password ∉ cmd.Args) ∧
      (args.IsDryRun = false →
        fx.started.map (fun c => c.Name :: c.Args) = [strings.Fields p.ExecCommand]) ∧
      (2 ≤ (passwordArguments args.Password).length ↔
        ∃ c ∈ fromSpace args.Password, unicode.IsSpace c = false) := by
  obtain ⟨hcmd, -⟩ := (passesValidation_iff env args).mp hv
  have hne : args.Password ≠ [] := by
    intro h
    obtain ⟨c, hc, -⟩ := hsp
    rw [h] at hc
    cases hc
  have hsplit : strings.Fields (commandLine env args) =
      strings.Fields (beforePassword env args) ++ passwordArguments args.Password ++
        strings.Fields (afterPassword args) := by
    rw [commandLine_eq_around_password, fields_beforePassword_append,
      fields_optFlag_append, fields_password_flag _ hsp, List.append_assoc]
  have hno : ∀ s : Str, "-password=".toList ++ args.Password ∉ strings.Fields s := by
    obtain ⟨c, hc, hcs⟩ := hsp
    intro s hmem
    have h := fields_no_space s _ hmem c (List.mem_append_right _ hc)
    rw [hcs] at h
    exact absurd h (by decide)
  have hbefore : strings.Fields (beforePassword env args) ≠ [] := by
    apply fields_ne_nil
    obtain ⟨x, hx⟩ : ∃ x, x ∈ args.FlywayCommand := by
      cases hc : args.FlywayCommand with
      | nil => exact absurd hc (supported_ne_nil hcmd)
      | cons a l => exact ⟨a, List.mem_cons_self _ _⟩
    refine ⟨x, ?_, ?_⟩
    · simp only [beforePassword, List.mem_append]
      exact Or.inl (Or.inl (Or.inl (Or.inl (Or.inl (Or.inr hx)))))
    · have hf := fields_supported hcmd
      exact fields_no_space _ _ (hf ▸ List.mem_singleton_self _) x hx
  have hlen : 2 ≤ (strings.Fields (assembledCommand env args)).length := by
    rw [assembledCommand_eq, hsplit]
    have h1 := List.length_pos.mpr hbefore
    simp only [List.length_append, passwordArguments, List.length_cons]
    omega
  refine ⟨_, _, _, exec_valid_eq env runner args hv hlen, ?_, hsplit, ?_, ?_, ?_, ?_⟩
  · show commandLine env args = _
    rw [commandLine_eq_around_password]
    simp only [optFlag, hne, if_false, List.append_assoc]
  · exact fun hmem => hno _ (List.mem_of_mem_tail hmem)
  · intro cmd hc
    cases hdry : args.IsDryRun
    · simp only [hdry, Bool.false_eq_true, if_false, afterRun_started, logInfo,
        List.nil_append, List.mem_singleton] at hc
      rw [hc]
      exact fun hmem => hno _ (List.mem_of_mem_tail hmem)
    · simp [hdry, logInfo] at hc
  · intro hdry
    have hnil : strings.Fields (commandLine env args) ≠ [] := by
      intro h
      rw [assembledCommand_eq, h] at hlen
      simp at hlen
    simp only [hdry, Bool.false_eq_true, if_false, afterRun_started, logInfo,
      List.nil_append, List.map_cons, List.map_nil, plannedCmd]
    rw [cons_headD_tail _ hnil]
  · rw [← fields_ne_nil_iff]
    simp only [passwordArguments, List.length_cons]
    constructor
    · intro h hnil
      rw [hnil] at h
      simp at h
    · intro h
      have := List.length_pos.mpr h
      omega

/-- Witness of C14, amended: the password `top secret`, run for real, becomes the two
arguments `-password=top` and `secret`. -/
theorem password_split_at_whitespace_witness :
    passesValidation envBin argsSpacedPassword = true ∧
    (∃ c ∈ argsSpacedPassword.Password, unicode.IsSpace c = true) ∧
    passwordArguments argsSpacedPassword.Password =
      ["-password=top".toList, "secret".toList] ∧
    strings.Fields (assembledCommand envBin argsSpacedPassword) =
      ["/flyway/flyway".toList, "migrate".toList, "-url=jdbc:mysql://h/db".toList,
        "-user=u".toList, "-password=top".toList, "secret".toList] ∧
    ∃ p err fx, Exec envBin runnerOk argsSpacedPassword = some (p, err, fx) ∧
      p.ExecCommand = beforePassword envBin argsSpacedPassword ++
        ("-password=".toList ++ argsSpacedPassword.Password ++ " ".toList) ++
        afterPassword argsSpacedPassword ∧
      strings.Fields p.ExecCommand =
        strings.Fields (beforePassword envBin argsSpacedPassword) ++
          passwordArguments argsSpacedPassword.Password ++
          strings.Fields (afterPassword argsSpacedPassword) ∧
      "-password=".toList ++ argsSpacedPassword.Password ∉
        (strings.Fields p.ExecCommand).tail ∧
      (∀ cmd ∈ fx.started,
        "-password=".toList ++ argsSpacedPassword.Password ∉ cmd.Args) ∧
      (argsSpacedPassword.IsDryRun = false →
        fx.started.map (fun c => c.Name :: c.Args) = [strings.Fields p.ExecCommand]) ∧
      (2 ≤ (passwordArguments argsSpacedPassword.Password).length ↔
        ∃ c ∈ fromSpace argsSpacedPassword.Password, unicode.IsSpace c = false) :=
  ⟨by decide, ⟨' ', by decide, by decide⟩, by decide, by decide,
    password_split_at_whitespace envBin runnerOk argsSpacedPassword (by decide)
      ⟨' ', by decide, by decide⟩⟩

end Flyway
